import Mathlib

/-!
Shallow embedding of the routing-optimization core of this repository
(`src/optimization/assign_clusters_heuristic.py`, `src/optimization/route_planner.py`,
`src/optimization/delivery_clustering.py`).

Modelling conventions:
* Graph, geometry and TSP primitives (`networkx`, `osmnx`, `shapely`) are external
  collaborators; they are passed in as an explicit `GraphOps` / geometry-operations
  record, mirroring the external-interface boundary of the system.  Concrete
  instances are supplied for the executable examples.
* Edge lengths, weights and volumes are modelled as `Nat`; coordinates as `Int`
  pairs.  `score_vehicle_for_delivery` returns the squared Euclidean distance
  instead of its square root: the square root is strictly monotone and the score
  is only ever used in comparisons, so the selection behaviour is unchanged.
* A Python statement that can raise an exception that no enclosing handler
  catches is modelled by returning `none` from an `Option`-valued function.
-/

namespace Routing

/-- Graph node identifier (osmnx node ids). -/
abbrev Node := Nat

/-- A coordinate pair. For points fed to zone tests this is the `(x, y)` order
used when the source constructs `Point(...)`; for delivery/warehouse
coordinates it is the `(lat, lon)` order of the JSON data. -/
abbrev Coord := Int × Int

/-- A restriction zone polygon, abstracted to its point-containment test
(`shapely`'s `contains` is an external geometry primitive). -/
abbrev Zone := Coord → Bool

/-- Vehicle type strings compared in `filter_graph_for_vehicle`
(`vehicle["type"] == "Truck"` / `"VUC"`); anything else is unrestricted. -/
inductive VType where
  | Truck
  | VUC
  | Other
deriving DecidableEq, Repr

/-- A fleet vehicle (`vehicle_fleet.json` record, the fields read by the
optimization code). -/
structure Vehicle where
  vid : Nat
  license_plate : String
  vtype : VType
  has_aetc : Bool
  max_weight_kg : Nat
  length_m : Nat
  width_m : Nat
  height_m : Nat
deriving DecidableEq, Repr

/-- A delivery demand (`deliveries.json` record, the fields read by the
optimization code).  `coords` is `(lat, lon)`. -/
structure Delivery where
  id : Nat
  coords : Coord
  weight_kg : Nat
  volume_m3 : Nat
deriving DecidableEq, Repr

/-- The road graph, abstracted to its node set with coordinates
(`G.nodes(data=True)` exposing `data["x"], data["y"]`).  Adjacency is consumed
only through the external shortest-path primitives in `GraphOps`. -/
structure RoadGraph where
  nodes : List (Node × Coord)
deriving DecidableEq, Repr

/-- External graph primitives (osmnx / networkx): nearest-node lookup,
shortest-path length and shortest path by edge length.  `none` models the
library raising an exception (`nearest_nodes` on an empty graph,
`NetworkXNoPath`). -/
structure GraphOps where
  nearestNode : RoadGraph → Coord → Option Node
  spLength : RoadGraph → Node → Node → Option Nat
  spPath : RoadGraph → Node → Node → Option (List Node)

/-- Well-formedness of the external shortest-path primitive: a returned path
runs from its source to its target. -/
def PathEnds (ops : GraphOps) : Prop :=
  ∀ G u v p, ops.spPath G u v = some p →
    p ≠ [] ∧ p.head? = some u ∧ p.getLast? = some v

/-- Consistency of the two shortest-path primitives: a length exists exactly
when a path exists (networkx computes both from the same Dijkstra search). -/
def PathConsistent (ops : GraphOps) : Prop :=
  ∀ G u v, (ops.spLength G u v).isSome = (ops.spPath G u v).isSome

/-- Source: `filter_graph_for_vehicle` (`assign_clusters_heuristic.py` lines
35-53; the copy in `route_planner.py` lines 45-80 is identical).  A node is
removed when it lies in the ZMRC shape and the vehicle is a Truck or a VUC
without AETC, or when it lies in some VER shape and the vehicle is a Truck or
a VUC while the description of the *first* VER record contains
"VUC é PROIBIDO" (`ver.iloc[0]["Description"]`), here the flag
`verProhibitsVUC`. -/
def filterGraphForVehicle (G : RoadGraph) (v : Vehicle) (zmrc : Zone)
    (verShapes : List Zone) (verProhibitsVUC : Bool) : RoadGraph :=
  { nodes := G.nodes.filter (fun nc =>
      ¬ ((zmrc nc.2 = true ∧
            (v.vtype = VType.Truck ∨ (v.vtype = VType.VUC ∧ v.has_aetc = false)))
        ∨ (verShapes.any (fun z => z nc.2) = true ∧
            (v.vtype = VType.Truck ∨ (v.vtype = VType.VUC ∧ verProhibitsVUC = true))))) }

/-- Source: `can_vehicle_reach_delivery`: the nearest-node lookup succeeds
(the `try/except` returns `False` exactly on an exception). -/
def canVehicleReachDelivery (ops : GraphOps) (Gv : RoadGraph) (d : Delivery) : Bool :=
  (ops.nearestNode Gv d.coords).isSome

/-- Source: `score_vehicle_for_delivery`.  The vehicle argument is never read;
the score is the distance between the warehouse and the delivery coordinates
(squared here, see the header note). -/
def scoreVehicleForDelivery (_vehicle : Vehicle) (delivery : Delivery)
    (warehouseCoords : Coord) : Int :=
  let dx := warehouseCoords.1 - delivery.coords.1
  let dy := warehouseCoords.2 - delivery.coords.2
  dx * dx + dy * dy

/-- Sum of `weight_kg` over an assignment's delivery entries. -/
def deliveriesWeight (ds : List (Delivery × String)) : Nat :=
  (ds.map (fun p => p.1.weight_kg)).sum

/-- Sum of `volume_m3` over an assignment's delivery entries. -/
def deliveriesVolume (ds : List (Delivery × String)) : Nat :=
  (ds.map (fun p => p.1.volume_m3)).sum

/-- Declared volume capacity `length_m * width_m * height_m`. -/
def volumeCapacity (v : Vehicle) : Nat :=
  v.length_m * v.width_m * v.height_m

/-- A final assignment entry (`assignments_final["Route k"]`). -/
structure Assignment where
  routeId : Nat
  vehicle : Vehicle
  path : List Node
  distance_m : Nat
  deliveries : List (Delivery × String)
deriving DecidableEq, Repr

/-- Source: `check_capacity`: current sums plus the new delivery stay within
the vehicle's weight and `length*width*height` volume capacities. -/
def checkCapacity (a : Assignment) (d : Delivery) : Bool :=
  (deliveriesWeight a.deliveries + d.weight_kg ≤ a.vehicle.max_weight_kg)
    && (deliveriesVolume a.deliveries + d.volume_m3 ≤ volumeCapacity a.vehicle)

/-- Capacity invariant for one assignment: the claim's property that total
assigned weight and volume stay within the vehicle's capacities. -/
def withinCapacity (a : Assignment) : Bool :=
  (deliveriesWeight a.deliveries ≤ a.vehicle.max_weight_kg)
    && (deliveriesVolume a.deliveries ≤ volumeCapacity a.vehicle)

/-- Source: `path_length`: sum of pairwise shortest-path lengths along the
node list, with 9999999 substituted where the library raises. -/
def pathLength (ops : GraphOps) (G : RoadGraph) : List Node → Nat
  | [] => 0
  | [_] => 0
  | a :: b :: rest =>
      (match ops.spLength G a b with
        | some dist => dist
        | none => 9999999) + pathLength ops G (b :: rest)

/-- Source: `best[:i] + best[i:j][::-1] + best[j:]` — reverse the segment of
positions `i ≤ k < j`. -/
def reverseSeg (route : List Node) (i j : Nat) : List Node :=
  route.take i ++ ((route.drop i).take (j - i)).reverse ++ route.drop j

/-- The `(i, j)` pairs visited by the nested loops of `two_opt_fixed`:
`i in range(1, n-2)`, `j in range(i+1, n-1)`, in iteration order. -/
def twoOptPairs (n : Nat) : List (Nat × Nat) :=
  (List.range' 1 (n - 3)).flatMap
    (fun i => (List.range' (i + 1) (n - 2 - i)).map (fun j => (i, j)))

/-- One traversal of the nested `for` loops of `two_opt_fixed`, threading the
current best route, its cost and the `improved` flag; pairs with `j - i == 1`
are skipped (`continue`). -/
def twoOptScan (ops : GraphOps) (G : RoadGraph) :
    List (Nat × Nat) → List Node → Nat → Bool → List Node × Nat × Bool
  | [], best, cost, improved => (best, cost, improved)
  | (i, j) :: rest, best, cost, improved =>
      if j - i = 1 then twoOptScan ops G rest best cost improved
      else
        let newRoute := reverseSeg best i j
        let newCost := pathLength ops G newRoute
        if newCost < cost then twoOptScan ops G rest newRoute newCost true
        else twoOptScan ops G rest best cost improved

/-- Source: the `while improved` loop of `two_opt_fixed`.  Each improving pass
strictly decreases the (natural-number) cost, so the loop runs at most
`cost + 1` passes; the structural `fuel` argument is called with that bound
and never reaches 0 (see `twoOptLoop_fuel_irrelevant`): the 0 branch is dead
code, present only to make the recursion structural. -/
def twoOptLoop (ops : GraphOps) (G : RoadGraph) :
    Nat → List Node → Nat → List Node
  | 0, best, _ => best
  | fuel + 1, best, cost =>
      match twoOptScan ops G (twoOptPairs best.length) best cost false with
      | (newBest, newCost, true) => twoOptLoop ops G fuel newBest newCost
      | (_, _, false) => best

/-- Source: `two_opt_fixed`. -/
def twoOptFixed (ops : GraphOps) (G : RoadGraph) (route : List Node) : List Node :=
  twoOptLoop ops G (pathLength ops G route).succ route (pathLength ops G route)

/-- The inner candidate scan of `build_full_path_strict`: starting from
`best_distance = inf`, keep the first strict improvement; candidates whose
shortest-path length raises are skipped (`except: continue`). -/
def nearestRemainingAux (ops : GraphOps) (G : RoadGraph) (current : Node) :
    List Node → Option (Node × Nat) → Option (Node × Nat)
  | [], best => best
  | d :: rest, best =>
      match ops.spLength G current d with
      | none => nearestRemainingAux ops G current rest best
      | some dist =>
          match best with
          | none => nearestRemainingAux ops G current rest (some (d, dist))
          | some (bn, bd) =>
              if dist < bd then nearestRemainingAux ops G current rest (some (d, dist))
              else nearestRemainingAux ops G current rest (some (bn, bd))

/-- The `next_node` selected by one iteration of the `while remaining_deliveries`
loop of `build_full_path_strict`. -/
def nearestRemaining (ops : GraphOps) (G : RoadGraph) (current : Node)
    (remaining : List Node) : Option Node :=
  (nearestRemainingAux ops G current remaining none).map (fun p => p.1)

/-- Source: the `while remaining_deliveries` loop of `build_full_path_strict`.
Returns the node list accumulated after the initial warehouse entry together
with the final `current_node`.  On a successful hop the path minus its first
node is appended and the target removed; if the chosen target turns out to
have no path (`except` branch) it is removed and skipped; if no candidate has
a finite distance the loop breaks. -/
def strictLoop (ops : GraphOps) (G : RoadGraph) :
    Nat → List Node → Node → List Node → List Node × Node
  | 0, _, current, acc => (acc, current)
  | fuel + 1, remaining, current, acc =>
      match nearestRemaining ops G current remaining with
      | none => (acc, current)
      | some nxt =>
          match ops.spPath G current nxt with
          | some p =>
              strictLoop ops G fuel (remaining.erase nxt) nxt (acc ++ p.drop 1)
          | none => strictLoop ops G fuel (remaining.erase nxt) current acc

/-- Source: `build_full_path_strict` (`assign_clusters_heuristic.py` lines
108-153).  `node_sequence[0]` is the warehouse, `node_sequence[1:-1]` the
delivery nodes, `node_sequence[-1]` the return warehouse.  After the main
loop, the return hop is appended when a shortest path exists; otherwise the
function only warns and the path ends wherever the loop stopped.  The source
never calls this on an empty sequence (it would raise on `node_sequence[0]`);
the `[]` branch is unreachable in the pipeline. -/
def buildFullPathStrict (ops : GraphOps) (G : RoadGraph) :
    List Node → List Node
  | [] => []
  | w :: rest =>
      let dels := rest.dropLast
      let back := rest.getLast?.getD w
      let res := strictLoop ops G dels.length dels w []
      let ret :=
        match ops.spPath G res.2 back with
        | some p => p.drop 1
        | none => []
      w :: (res.1 ++ ret)

/-! ### The heuristic assignment engine (`assign_clusters_heuristic`) -/

/-- Lookup in `deliveries_dict = {d["id"]: d for d in deliveries}`: the dict
comprehension keeps the last record for a duplicated id, so the lookup scans
the reversed list.  `none` models the `KeyError` the subscript would raise. -/
def lookupDelivery (deliveries : List Delivery) (did : Nat) : Option Delivery :=
  deliveries.reverse.find? (fun d => d.id == did)

/-- The per-vehicle filtered graph, read back from the plate-keyed dict
`G_vehicles = {v["license_plate"]: filter_graph_for_vehicle(G, v, ...)}`: a
duplicated plate keeps the last vehicle's graph.  For a vehicle drawn from the
fleet the lookup always succeeds, so the `getD` default is never used. -/
def gvehicleFor (G : RoadGraph) (zmrc : Zone) (verShapes : List Zone)
    (verProhibitsVUC : Bool) (vehicles : List Vehicle) (v : Vehicle) : RoadGraph :=
  filterGraphForVehicle G
    ((vehicles.reverse.find? (fun w => w.license_plate == v.license_plate)).getD v)
    zmrc verShapes verProhibitsVUC

/-- Adding an id to the Python set `used_deliveries` (`set.add`). -/
def setInsert (x : Nat) (s : List Nat) : List Nat :=
  if x ∈ s then s else x :: s

/-- Removing an id from the Python set `used_deliveries` (`set.discard`). -/
def setEraseAll (x : Nat) (s : List Nat) : List Nat :=
  s.filter (fun y => y ≠ x)

/-- Stable insertion used to model Python's stable `sorted(..., key=lambda x: x[0])`:
an element moves in front only of strictly later-inserted elements with a
strictly larger key, so equal keys keep input order.  A stable by-key sort is
extensionally unique, hence this models `sorted` exactly. -/
def insertByKey (x : Int × Vehicle) : List (Int × Vehicle) → List (Int × Vehicle)
  | [] => [x]
  | y :: ys => if x.1 ≤ y.1 then x :: y :: ys else y :: insertByKey x ys

/-- Stable insertion sort on `(score, vehicle)` pairs; see `insertByKey`. -/
def sortByKey : List (Int × Vehicle) → List (Int × Vehicle)
  | [] => []
  | x :: xs => insertByKey x (sortByKey xs)

/-- The candidate list of the primary pass: for each fleet vehicle in order,
if every cluster member passes `can_vehicle_reach_delivery` on that vehicle's
filtered graph, append `(score_vehicle_for_delivery(v, cluster_deliveries[0],
WAREHOUSE_COORDS), v)`. -/
def buildCandidates (ops : GraphOps) (G : RoadGraph) (zmrc : Zone)
    (verShapes : List Zone) (verProhibitsVUC : Bool) (vehicles : List Vehicle)
    (cds : List Delivery) (d0 : Delivery) (wh : Coord) : List (Int × Vehicle) :=
  vehicles.filterMap (fun v =>
    if cds.all (fun d =>
        canVehicleReachDelivery ops
          (gvehicleFor G zmrc verShapes verProhibitsVUC vehicles v) d) then
      some (scoreVehicleForDelivery v d0 wh, v)
    else none)

/-- The per-cluster validation loop: for each cluster delivery in order, look
up its nearest node in the chosen vehicle's graph; on success record
`(node, delivery)` and add the id to `used_deliveries`, on failure skip it. -/
def validateDeliveries (ops : GraphOps) (Gv : RoadGraph) :
    List Delivery → List Nat → List (Node × Delivery) × List Nat
  | [], used => ([], used)
  | d :: ds, used =>
      match ops.nearestNode Gv d.coords with
      | some n =>
          let r := validateDeliveries ops Gv ds (setInsert d.id used)
          ((n, d) :: r.1, r.2)
      | none => validateDeliveries ops Gv ds used

/-- The rollback in the `except` branch of the primary pass:
`used_deliveries.discard(d["id"])` for every validated delivery. -/
def rollbackUsed (valid : List (Node × Delivery)) (used : List Nat) : List Nat :=
  valid.foldl (fun u p => setEraseAll p.2.id u) used

/-- Total route distance
`sum(nx.shortest_path_length(...) for consecutive pairs)`; `none` models the
`NetworkXNoPath` exception that aborts the sum. -/
def pathTotalDistance (ops : GraphOps) (G : RoadGraph) : List Node → Option Nat
  | [] => some 0
  | [_] => some 0
  | a :: b :: rest => do
      let d ← ops.spLength G a b
      let r ← pathTotalDistance ops G (b :: rest)
      pure (d + r)

/-- Mutable state of the primary pass of `assign_clusters_heuristic`. -/
structure PState where
  used : List Nat
  assignments : List Assignment
  routeId : Nat
deriving DecidableEq, Repr

/-- Initial state: `used_deliveries = set()`, `assignments_final = {}`,
`route_id = 1`. -/
def initPState : PState :=
  { used := [], assignments := [], routeId := 1 }

/-- Source: one iteration of the cluster loop of `assign_clusters_heuristic`
(lines 167-209).  `none` models an uncaught exception (a `KeyError` from
`deliveries_dict[did]`, or `get_nearest_node` raising on the warehouse lookup,
which sits outside the `try` block). -/
def processCluster (ops : GraphOps) (G : RoadGraph) (zmrc : Zone)
    (verShapes : List Zone) (verProhibitsVUC : Bool) (vehicles : List Vehicle)
    (deliveries : List Delivery) (wh : Coord) (st : PState)
    (cid : String) (dids : List Nat) : Option PState := do
  let cds ← (dids.filter (fun did => decide (did ∉ st.used))).mapM
      (lookupDelivery deliveries)
  match cds with
  | [] => pure st
  | d0 :: _ =>
      let candidates :=
        buildCandidates ops G zmrc verShapes verProhibitsVUC vehicles cds d0 wh
      match candidates with
      | [] => pure st
      | c0 :: crest =>
          -- `sorted(candidates, ...)[0][1]`; sorting a nonempty list is
          -- nonempty, so the `[]` branch is dead code.
          match sortByKey (c0 :: crest) with
          | [] => pure st
          | b0 :: _ =>
          let best := b0.2
          let Gv := gvehicleFor G zmrc verShapes verProhibitsVUC vehicles best
          let vres := validateDeliveries ops Gv cds st.used
          -- `if not valid_deliveries: continue`
          if vres.1.isEmpty then pure st
          else do
              let whNode ← ops.nearestNode Gv wh
              let fullPath := whNode :: (vres.1.map (fun p => p.1) ++ [whNode])
              let optimized := twoOptFixed ops Gv fullPath
              let validated := buildFullPathStrict ops Gv optimized
              if validated.dedup.length < 2 then
                pure { st with used := rollbackUsed vres.1 vres.2 }
              else
                match pathTotalDistance ops Gv validated with
                | none => pure { st with used := rollbackUsed vres.1 vres.2 }
                | some dist =>
                    pure { used := vres.2,
                           assignments := st.assignments ++
                             [{ routeId := st.routeId, vehicle := best,
                                path := validated, distance_m := dist,
                                deliveries :=
                                  vres.1.map (fun p => (p.2, cid)) }],
                           routeId := st.routeId + 1 }

/-- Source: the full cluster loop of the primary pass, over
`cluster_mapping.items()` in order. -/
def primaryPass (ops : GraphOps) (G : RoadGraph) (zmrc : Zone)
    (verShapes : List Zone) (verProhibitsVUC : Bool) (vehicles : List Vehicle)
    (deliveries : List Delivery) (wh : Coord) :
    List (String × List Nat) → PState → Option PState
  | [], st => some st
  | (cid, dids) :: rest, st => do
      let st' ← processCluster ops G zmrc verShapes verProhibitsVUC vehicles
        deliveries wh st cid dids
      primaryPass ops G zmrc verShapes verProhibitsVUC vehicles deliveries wh
        rest st'

/-- The reassignment scan over `assignments_final.items()` in creation order:
attach the delivery to the first assignment whose vehicle can reach it and
whose remaining capacity admits it (`check_capacity`); `none` means no
assignment took it.  The `get_nearest_node` call inside the inner `try` cannot
raise once `can_vehicle_reach_delivery` returned `True`, because both call the
same deterministic primitive. -/
def tryAttach (ops : GraphOps) (G : RoadGraph) (zmrc : Zone)
    (verShapes : List Zone) (verProhibitsVUC : Bool) (vehicles : List Vehicle)
    (d : Delivery) : List Assignment → Option (List Assignment)
  | [] => none
  | a :: rest =>
      if canVehicleReachDelivery ops
            (gvehicleFor G zmrc verShapes verProhibitsVUC vehicles a.vehicle) d
          && checkCapacity a d then
        some ({ a with deliveries := a.deliveries ++ [(d, "Reassigned")] } :: rest)
      else
        (tryAttach ops G zmrc verShapes verProhibitsVUC vehicles d rest).map
          (fun r => a :: r)

/-- Source: the leftover loop of `assign_clusters_heuristic` (lines 211-226).
Returns the updated assignment list and, in order, the ids of deliveries that
"could not be reassigned" (the printed warnings, i.e. the permanently
unassigned report). -/
def leftoverPass (ops : GraphOps) (G : RoadGraph) (zmrc : Zone)
    (verShapes : List Zone) (verProhibitsVUC : Bool) (vehicles : List Vehicle) :
    List Assignment → List Delivery → List Assignment × List Nat
  | asg, [] => (asg, [])
  | asg, d :: ds =>
      match tryAttach ops G zmrc verShapes verProhibitsVUC vehicles d asg with
      | some asg' =>
          leftoverPass ops G zmrc verShapes verProhibitsVUC vehicles asg' ds
      | none =>
          let r := leftoverPass ops G zmrc verShapes verProhibitsVUC vehicles asg ds
          (r.1, d.id :: r.2)

/-- The observable outcome of `assign_clusters_heuristic`: the returned
`assignments_final` plus the warning log of permanently unassigned ids. -/
structure HeurResult where
  assignments : List Assignment
  warnings : List Nat
deriving DecidableEq, Repr

/-- Source: `assign_clusters_heuristic` (lines 156-227).  The deliveries list,
cluster mapping and restriction shapes are loaded from collaborator files; the
graph primitives are the external library.  `none` models an uncaught
exception. -/
def assignClustersHeuristic (ops : GraphOps) (G : RoadGraph) (zmrc : Zone)
    (verShapes : List Zone) (verProhibitsVUC : Bool) (vehicles : List Vehicle)
    (deliveries : List Delivery) (clusterMapping : List (String × List Nat))
    (wh : Coord) : Option HeurResult := do
  let st ← primaryPass ops G zmrc verShapes verProhibitsVUC vehicles deliveries
    wh clusterMapping initPState
  let unassigned := deliveries.filter (fun d => decide (d.id ∉ st.used))
  let r := leftoverPass ops G zmrc verShapes verProhibitsVUC vehicles
    st.assignments unassigned
  pure { assignments := r.1, warnings := r.2 }

/-- The demand ids carried by one assignment's delivery list. -/
def assignmentIds (a : Assignment) : List Nat :=
  a.deliveries.map (fun p => p.1.id)

/-- All demand ids appearing in some assignment of the map. -/
def allAssignedIds (asg : List Assignment) : List Nat :=
  asg.flatMap assignmentIds

/-- The number of distinct demands appearing in some final assignment. -/
def distinctAssignedCount (asg : List Assignment) : Nat :=
  (allAssignedIds asg).toFinset.card

/-- Disjointness: no demand id appears in two different assignments. -/
def AssignmentsDisjoint (asg : List Assignment) : Prop :=
  asg.Pairwise (fun a b => ∀ x ∈ assignmentIds a, x ∉ assignmentIds b)

/-- Invariant of the primary pass tying `used_deliveries` to the assignment
map: `used` is duplicate-free, holds exactly the ids recorded in assignments,
only ids of input deliveries, and the assignments are pairwise disjoint. -/
structure PrimInv (deliveries : List Delivery) (st : PState) : Prop where
  nodup : st.used.Nodup
  mem_iff : ∀ x, x ∈ st.used ↔ x ∈ allAssignedIds st.assignments
  sub : ∀ x ∈ st.used, x ∈ deliveries.map (fun d => d.id)
  disj : AssignmentsDisjoint st.assignments

/-! ### Concrete instances of the external primitives, for executable runs -/

/-- Node membership in the (filtered) graph. -/
def hasNode (G : RoadGraph) (u : Node) : Bool :=
  G.nodes.any (fun p => p.1 == u)

/-- Squared Euclidean distance between two coordinate pairs. -/
def sqDist (a b : Coord) : Int :=
  (a.1 - b.1) * (a.1 - b.1) + (a.2 - b.2) * (a.2 - b.2)

/-- A concrete nearest-node lookup: the first node minimising squared distance,
failing (like `osmnx.distance.nearest_nodes`) when the graph has no nodes. -/
def concreteNearest (G : RoadGraph) (c : Coord) : Option Node :=
  match G.nodes with
  | [] => none
  | n :: rest =>
      some ((rest.foldl
        (fun b p => if sqDist p.2 c < sqDist b.2 c then p else b) n).1)

/-- A concrete shortest-path oracle for a complete symmetric world: any two
nodes present in the graph are joined by a direct path of length `w`. -/
def completeOps (w : Nat) : GraphOps :=
  { nearestNode := concreteNearest
    spLength := fun G u v =>
      if hasNode G u && hasNode G v then some (if u == v then 0 else w) else none
    spPath := fun G u v =>
      if hasNode G u && hasNode G v then some (if u == v then [u] else [u, v])
      else none }

/-- A concrete shortest-path oracle with table-driven directed connectivity:
`arcs` lists the ordered pairs joined by a direct path of length `w`; every
node reaches itself.  Directed asymmetry is realistic: the osmnx drive
network is a directed multigraph. -/
def arcOps (arcs : List (Node × Node)) (w : Nat) : GraphOps :=
  { nearestNode := concreteNearest
    spLength := fun G u v =>
      if hasNode G u && hasNode G v then
        if u == v then some 0
        else if arcs.contains (u, v) then some w else none
      else none
    spPath := fun G u v =>
      if hasNode G u && hasNode G v then
        if u == v then some [u]
        else if arcs.contains (u, v) then some [u, v] else none
      else none }

/-- Zone containing no point at all. -/
def zoneEmpty : Zone := fun _ => false

/-- Example world for the capacity run: a warehouse node 1 and a delivery
node 2, fully connected. -/
def exG2 : RoadGraph := { nodes := [(1, (0, 0)), (2, (3, 0))] }

/-- A vehicle with ample permissions but only 10 kg of weight capacity. -/
def vSmall : Vehicle :=
  { vid := 1, license_plate := "ABC1234", vtype := VType.Other, has_aetc := false
    max_weight_kg := 10, length_m := 10, width_m := 10, height_m := 10 }

/-- A delivery weighing 100 kg at the coordinates of node 2. -/
def dHeavy : Delivery := { id := 1, coords := (3, 0), weight_kg := 100, volume_m3 := 1 }

/-- A light delivery at the coordinates of node 2. -/
def dLight : Delivery := { id := 1, coords := (3, 0), weight_kg := 5, volume_m3 := 1 }

/-- A second vehicle of the same unrestricted type. -/
def vSmall2 : Vehicle :=
  { vid := 2, license_plate := "DEF5678", vtype := VType.Other, has_aetc := false
    max_weight_kg := 10, length_m := 10, width_m := 10, height_m := 10 }

/-- A Truck with ample capacity (used for the zone-filter examples). -/
def vTruck : Vehicle :=
  { vid := 3, license_plate := "TRK0001", vtype := VType.Truck, has_aetc := false
    max_weight_kg := 5000, length_m := 10, width_m := 10, height_m := 10 }

/-- A zone whose polygon contains exactly the point `(5, 5)` — standing for
the Rodizio Municipal rotation area in the zone-exclusion counterexample. -/
def rodizioPointZone : Zone := fun c => c == (5, 5)

/-- A one-node graph whose single node lies inside `rodizioPointZone`. -/
def exGRod : RoadGraph := { nodes := [(1, (5, 5))] }

/-- World for the disconnected-virtual-graph runs: warehouse node 1,
delivery nodes 2 and 3. -/
def exG3 : RoadGraph :=
  { nodes := [(1, (0, 0)), (2, (10, 0)), (3, (-10, 0))] }

/-- Delivery resolved to node 2 of `exG3`. -/
def dA : Delivery := { id := 1, coords := (10, 0), weight_kg := 5, volume_m3 := 1 }

/-- Delivery resolved to node 3 of `exG3`. -/
def dB : Delivery := { id := 2, coords := (-10, 0), weight_kg := 5, volume_m3 := 1 }

/-- A concrete TSP approximation for the two-node virtual graph: the closed
tour `1 → 2 → 1`. -/
def exSolver : List ((Node × Node) × Nat) → List Node := fun _ => [1, 2, 1]

/-- A constant straight-line distance oracle. -/
def constDist100 : Coord → Coord → Nat := fun _ _ => 100

/-! ### The virtual-graph TSP route builder (`route_planner.py`) -/

/-- Failure modes of `compute_shortest_path_with_restrictions`: `valueErr` is
the `ValueError` that `assign_clusters_to_routes` catches; `crash` is any
other uncaught failure (the `IndexError` raised by `tsp_path[0]` on an empty
solver result, or the rotation `while` loop never terminating when the
warehouse node is absent from the cycle). -/
inductive CompErr where
  | valueErr (msg : String)
  | crash (msg : String)
deriving DecidableEq, Repr

/-- The ordered node pairs visited by the nested `for i, u / for j, v` loops
with `i >= j` skipped: all `(nodes[i], nodes[j])` with `i < j`. -/
def indexPairs (ns : List Node) : List (Node × Node) :=
  ns.enum.flatMap (fun iu =>
    ns.enum.filterMap (fun jv =>
      if iu.1 < jv.1 then some (iu.2, jv.2) else none))

/-- Unordered edge key of an `nx.Graph`. -/
def normPair (u v : Node) : Node × Node :=
  if u ≤ v then (u, v) else (v, u)

/-- The effect of `tsp_graph.add_edge(u, v, weight=dist)`: an existing edge
with the same unordered key has its weight overwritten in place, otherwise
the edge is appended. -/
def addTspEdge (es : List ((Node × Node) × Nat)) (u v : Node) (w : Nat) :
    List ((Node × Node) × Nat) :=
  if es.any (fun e => e.1 == normPair u v) then
    es.map (fun e => if e.1 == normPair u v then (e.1, w) else e)
  else es ++ [(normPair u v, w)]

/-- The `tsp_graph` edge construction: for every index pair `i < j`, try the
shortest-path length and add the edge, skipping pairs where the library
raises `NetworkXNoPath`. -/
def buildTspEdges (ops : GraphOps) (G : RoadGraph) (ns : List Node) :
    List ((Node × Node) × Nat) :=
  (indexPairs ns).foldl (fun es uv =>
    match ops.spLength G uv.1 uv.2 with
    | some dist => addTspEdge es uv.1 uv.2 dist
    | none => es) []

/-- The node set of the built `tsp_graph`: `nx.Graph` acquires exactly the
endpoints of added edges (`len(tsp_graph.nodes)`); order is irrelevant, only
the count and membership are consumed. -/
def tspNodesOf (es : List ((Node × Node) × Nat)) : List Node :=
  (es.flatMap (fun e => [e.1.1, e.1.2])).dedup

/-- The rotation loop `while tsp_path[0] != warehouse_node`: rotates the list
until its head is the warehouse node.  On an empty list the subscript raises
an `IndexError`; when the warehouse node never occurs the loop runs forever —
both are uncatchable failures, modelled as `crash`. -/
def rotateToWarehouse (wh : Node) (l : List Node) : Except CompErr (List Node) :=
  match l with
  | [] => Except.error (CompErr.crash "IndexError on empty TSP path")
  | _ :: _ =>
      if wh ∈ l then
        Except.ok (l.drop (l.indexOf wh) ++ l.take (l.indexOf wh))
      else Except.error (CompErr.crash "rotation loop never terminates")

/-- The stitching loop: for every consecutive pair of the rotated cycle,
append the real shortest path minus its final node and accumulate its length,
skipping pairs where the library raises `NetworkXNoPath`; finally append the
cycle's last node.  The `[]` fallback is dead code (rotation fails first on
an empty cycle). -/
def stitchTspPath (ops : GraphOps) (G : RoadGraph) (tspPath : List Node) :
    List Node × Nat :=
  let r := (tspPath.zip (tspPath.drop 1)).foldl
    (fun (acc : List Node × Nat) ab =>
      match ops.spPath G ab.1 ab.2, ops.spLength G ab.1 ab.2 with
      | some p, some d => (acc.1 ++ p.dropLast, acc.2 + d)
      | _, _ => acc) ([], 0)
  match tspPath.getLast? with
  | some last => (r.1 ++ [last], r.2)
  | none => ([], 0)

/-- Source: `compute_shortest_path_with_restrictions` (`route_planner.py`
lines 83-141).  The TSP approximation
(`networkx.algorithms.approximation.traveling_salesman_problem` with
`cycle=True`) is an external primitive, passed in as `tspSolver` over the
built weighted edge list.  Deliveries whose nearest-node lookup raises are
only reported and then silently dropped.  The completeness check compares the
edge count against `n(n-1)/2` over the nodes the `tsp_graph` actually
acquired. -/
def computeShortestPathWithRestrictions (ops : GraphOps)
    (tspSolver : List ((Node × Node) × Nat) → List Node) (G : RoadGraph)
    (whCoords : Coord) (deliveryPoints : List Delivery) (vehicle : Vehicle)
    (zmrc : Zone) (verShapes : List Zone) (verProhibitsVUC : Bool) :
    Except CompErr (List Node × Nat) := do
  let Gv := filterGraphForVehicle G vehicle zmrc verShapes verProhibitsVUC
  let whNode ← match ops.nearestNode Gv whCoords with
    | some n => Except.ok n
    | none => Except.error (CompErr.crash "nearest_nodes failed for the warehouse")
  let deliveryNodes := deliveryPoints.filterMap (fun d => ops.nearestNode Gv d.coords)
  let ns := whNode :: deliveryNodes
  let es := buildTspEdges ops Gv ns
  let tn := tspNodesOf es
  if es.length < tn.length * (tn.length - 1) / 2 then
    Except.error
      (CompErr.valueErr "Cannot create TSP path: disconnected or incomplete graph")
  else do
    let rotated ← rotateToWarehouse whNode (tspSolver es)
    Except.ok (stitchTspPath ops Gv rotated)

/-- Source: `can_vehicle_reach_all_deliveries` (`route_planner.py` lines
330-338). -/
def canVehicleReachAllDeliveries (ops : GraphOps) (G : RoadGraph) (vehicle : Vehicle)
    (zmrc : Zone) (verShapes : List Zone) (verProhibitsVUC : Bool)
    (deliveries : List Delivery) : Bool :=
  let Gv := filterGraphForVehicle G vehicle zmrc verShapes verProhibitsVUC
  deliveries.all (fun d => (ops.nearestNode Gv d.coords).isSome)

/-- Real travel distance of `validate_route_efficiency`: consecutive path
node pairs that are both present in the *unfiltered* graph contribute their
shortest-path length; failing pairs are skipped. -/
def realPathDistance (ops : GraphOps) (G : RoadGraph) (pathNodes : List Node) : Nat :=
  (pathNodes.zip (pathNodes.drop 1)).foldl
    (fun acc ab =>
      if hasNode G ab.1 && hasNode G ab.2 then
        match ops.spLength G ab.1 ab.2 with
        | some d => acc + d
        | none => acc
      else acc) 0

/-- Source: `validate_route_efficiency` (`route_planner.py` lines 341-368).
`geomDist` is the external straight-line `Point.distance`.  The float
comparison `real / straight <= 1.5` is written `2 * real ≤ 3 * straight`
(equivalent for a positive denominator; the source would raise
`ZeroDivisionError` when the straight distance is zero, a case none of the
theorems below exercise). -/
def validateRouteEfficiency (ops : GraphOps) (geomDist : Coord → Coord → Nat)
    (G : RoadGraph) (whCoords : Coord) (deliveries : List Delivery)
    (pathNodes : List Node) : Bool :=
  if deliveries.length < 2 then true
  else
    let straight := (deliveries.map (fun d => geomDist whCoords d.coords)).sum
    let real := realPathDistance ops G pathNodes
    if real == 0 then false
    else decide (2 * real ≤ 3 * straight)

/-- Source: the candidate-vehicle loop of `assign_clusters_to_routes`
(`route_planner.py` lines 205-229) for one cluster: skip vehicles failing the
reachability pre-check, catch `except ValueError: continue` around the route
builder (any other exception propagates and aborts the run, modelled by
`Except.error`), then the efficiency check; the first surviving vehicle is
assigned.  `ok none` means the cluster stays pending for the leftover pass. -/
def tryVehiclesForCluster (ops : GraphOps)
    (tspSolver : List ((Node × Node) × Nat) → List Node)
    (geomDist : Coord → Coord → Nat) (G : RoadGraph) (zmrc : Zone)
    (verShapes : List Zone) (verProhibitsVUC : Bool) (whCoords : Coord)
    (cds : List Delivery) :
    List Vehicle → Except String (Option (Vehicle × List Node × Nat))
  | [] => Except.ok none
  | v :: vs =>
      if !canVehicleReachAllDeliveries ops G v zmrc verShapes verProhibitsVUC cds then
        tryVehiclesForCluster ops tspSolver geomDist G zmrc verShapes
          verProhibitsVUC whCoords cds vs
      else
        match computeShortestPathWithRestrictions ops tspSolver G whCoords cds v
            zmrc verShapes verProhibitsVUC with
        | Except.error (CompErr.valueErr _) =>
            tryVehiclesForCluster ops tspSolver geomDist G zmrc verShapes
              verProhibitsVUC whCoords cds vs
        | Except.error (CompErr.crash m) => Except.error m
        | Except.ok (pathNodes, dist) =>
            if !validateRouteEfficiency ops geomDist G whCoords cds pathNodes then
              tryVehiclesForCluster ops tspSolver geomDist G zmrc verShapes
                verProhibitsVUC whCoords cds vs
            else Except.ok (some (v, pathNodes, dist))

/-! ### The zone-aware clusterer (`delivery_clustering.py`) -/

/-- External geometry primitives (`shapely`): point buffering, `unary_union`
over a list of geometries, distance from a point to a geometry's centroid,
distance between two geometries' centroids, and the pairwise distance between
two buffered points' centroids (used by `merge_close_buffers`).  Distances
are `Nat`-valued since they are only compared. -/
structure GeomOps (γ : Type) where
  buffer : Coord → γ
  unionList : List γ → γ
  pointCentroidDist : Coord → γ → Nat
  centroidDist : γ → γ → Nat
  pointDist : Coord → Coord → Nat

/-- A cluster record (the per-cluster dict of `generate_delivery_clusters`). -/
structure ClusterData (γ : Type) where
  geometry : γ
  members : List Nat
  requires_zmrc : Bool
  requires_rodizio : Bool
deriving Repr

/-- Source: the grouping of `merge_close_buffers`: scan points in order; an
unassigned point starts a group and grabs every later still-unassigned point
within the distance threshold. -/
def mergeGroups (dist : Coord → Coord → Nat) (thr : Nat) :
    List (Nat × Coord) → List (List (Nat × Coord))
  | [] => []
  | x :: rest =>
      let near := rest.filter (fun y => dist x.2 y.2 < thr)
      let far := rest.filter (fun y => ¬ dist x.2 y.2 < thr)
      (x :: near) :: mergeGroups dist thr far
termination_by l => l.length
decreasing_by
  simp only [List.length_cons]
  exact Nat.lt_succ_of_le (List.length_filter_le _ _)

/-- Source: the free-demand clusters built from `merge_close_buffers`:
`Cluster k` with the union of the member buffers as geometry. -/
def outsideClusters {γ : Type} (gops : GeomOps γ) (mergeThr : Nat)
    (outside : List (Nat × Coord)) : List (String × ClusterData γ) :=
  (mergeGroups gops.pointDist mergeThr outside).enum.map (fun kg =>
    ("Cluster " ++ toString (kg.1 + 1),
     { geometry := gops.unionList (kg.2.map (fun p => gops.buffer p.2))
       members := kg.2.map (fun p => p.1)
       requires_zmrc := false
       requires_rodizio := false }))

/-- Python's `min(candidates, key=...)` over a nonempty list: the first
element attaining the minimal key. -/
def minByKey {α : Type} (key : α → Nat) (c0 : α) (crest : List α) : α :=
  crest.foldl (fun b c => if key c < key b then c else b) c0

/-- Source: the zone-redistribution loop of `generate_delivery_clusters`
(lines 118-131 for ZMRC with `zoneIsZmrc = true`, lines 140-152 for Rodizio):
each zone point is attached to the nearest existing free cluster by
point-to-centroid distance, that cluster's geometry is unioned with the
point's buffer and the zone-requirement flag set.  `none` models the
`ValueError` that `min(...)` raises on an empty candidate sequence. -/
def redistributeZonePoints {γ : Type} (gops : GeomOps γ) (zoneIsZmrc : Bool) :
    List (Nat × Coord) → List (String × ClusterData γ) →
    Option (List (String × ClusterData γ))
  | [], cm => some cm
  | (idx, p) :: rest, cm =>
      match cm with
      | [] => none
      | c0 :: crest =>
          let nearest := minByKey (fun c => gops.pointCentroidDist p c.2.geometry)
            c0 crest
          let cm' := cm.map (fun c =>
            if c.1 == nearest.1 then
              (c.1,
               { geometry := gops.unionList [c.2.geometry, gops.buffer p]
                 members := c.2.members ++ [idx]
                 requires_zmrc := if zoneIsZmrc then true else c.2.requires_zmrc
                 requires_rodizio := if zoneIsZmrc then c.2.requires_rodizio else true })
            else c)
          redistributeZonePoints gops zoneIsZmrc rest cm'

/-- Source: the merged record written by the force-merge pass: geometry
union, concatenated member list, and zone flags combined with `|=`. -/
def mergedClusterData {γ : Type} (gops : GeomOps γ) (target source : ClusterData γ) :
    ClusterData γ :=
  { geometry := gops.unionList [target.geometry, source.geometry]
    members := target.members ++ source.members
    requires_zmrc := target.requires_zmrc || source.requires_zmrc
    requires_rodizio := target.requires_rodizio || source.requires_rodizio }

/-- Source: the in-place merge of cluster `cid` into cluster `tid`
(update `clusters[target_id]`, then `del clusters[cid]`). -/
def applyMerge {γ : Type} (gops : GeomOps γ) (cs : List (String × ClusterData γ))
    (cid : String) (cdata : ClusterData γ) (tid : String) :
    List (String × ClusterData γ) :=
  (cs.map (fun c => if c.1 == tid then (c.1, mergedClusterData gops c.2 cdata) else c)).filter
    (fun c => c.1 ≠ cid)

/-- Source: the `for cid in small_clusters` loop body: skip small clusters
with no other cluster left (`continue`), otherwise merge the first mergeable
small cluster into its nearest other cluster by centroid distance and `break`.
`none` means the pass made no change (`changed` stays `False`). -/
def forceMergeInner {γ : Type} (gops : GeomOps γ)
    (cs : List (String × ClusterData γ)) :
    List (String × ClusterData γ) → Option (List (String × ClusterData γ))
  | [] => none
  | (cid, cdata) :: restSmall =>
      match cs.filter (fun c => c.1 ≠ cid) with
      | [] => forceMergeInner gops cs restSmall
      | c0 :: crest =>
          let target := minByKey
            (fun c => gops.centroidDist cdata.geometry c.2.geometry) c0 crest
          some (applyMerge gops cs cid cdata target.1)

/-- Source: the `while changed` loop of `force_merge_clusters`
(`delivery_clustering.py` lines 155-187).  Each executed merge removes one
cluster, so the loop runs at most `cs.length` times; the structural `fuel`
argument is called with that bound and the 0 branch is dead code (see
`forceMergeClusters_post`). -/
def forceMergeLoop {γ : Type} (gops : GeomOps γ) (minPts : Nat) :
    Nat → List (String × ClusterData γ) → List (String × ClusterData γ)
  | 0, cs => cs
  | fuel + 1, cs =>
      let small := cs.filter (fun c => c.2.members.length < minPts)
      match small with
      | [] => cs
      | _ :: _ =>
          match forceMergeInner gops cs small with
          | none => cs
          | some cs' => forceMergeLoop gops minPts fuel cs'

/-- Source: `force_merge_clusters`. -/
def forceMergeClusters {γ : Type} (gops : GeomOps γ) (minPts : Nat)
    (cs : List (String × ClusterData γ)) : List (String × ClusterData γ) :=
  forceMergeLoop gops minPts cs.length cs

/-- The shapely point built from a delivery: `Point(d["coords"][1],
d["coords"][0])` — `(x, y) = (lon, lat)`. -/
def toPoint (d : Delivery) : Coord := (d.coords.2, d.coords.1)

/-- The enumerated delivery points (`enumerate(deliveries, start=1)`; every
modelled delivery carries a two-element `coords`). -/
def clusterPoints (deliveries : List Delivery) : List (Nat × Coord) :=
  deliveries.enum.map (fun p => (p.1 + 1, toPoint p.2))

/-- The ZMRC bucket of the partition (`detect_zone` returns "ZMRC" first). -/
def ptsZmrc (zmrcShape : Zone) (deliveries : List Delivery) : List (Nat × Coord) :=
  (clusterPoints deliveries).filter (fun p => zmrcShape p.2)

/-- The Rodizio bucket (`detect_zone` falls through the ZMRC test first). -/
def ptsRodizio (zmrcShape rodizioShape : Zone) (deliveries : List Delivery) :
    List (Nat × Coord) :=
  (clusterPoints deliveries).filter
    (fun p => !zmrcShape p.2 && rodizioShape p.2)

/-- The free bucket: demands outside both managed zones. -/
def ptsOutside (zmrcShape rodizioShape : Zone) (deliveries : List Delivery) :
    List (Nat × Coord) :=
  (clusterPoints deliveries).filter
    (fun p => !zmrcShape p.2 && !rodizioShape p.2)

/-- Source: `min_points_per_cluster = max(3, int(total * 0.08))` (the float
product is written as exact arithmetic `total * 8 / 100`). -/
def minPointsPerCluster (deliveries : List Delivery) : Nat :=
  max 3 ((clusterPoints deliveries).length * 8 / 100)

/-- Source: the cluster-construction core of `generate_delivery_clusters`
(lines 56-189): partition by zone, build free clusters from merged buffers,
keep a zone bucket as a dedicated cluster when it reaches the minimum size
and otherwise redistribute its points into the free clusters, then run the
force-merge pass.  `all_clusters = dict(cluster_members)` is a shallow copy,
so zone-redistribution updates are visible in `all_clusters`; the dedicated
zone clusters are appended after the free clusters in dict insertion order.
The `if outside:` guard is dropped because the cluster construction already
yields an empty map on an empty bucket.  `none` models the uncaught
`ValueError` of an empty `min(...)`. -/
def generateDeliveryClustersCore {γ : Type} (gops : GeomOps γ)
    (zmrcShape rodizioShape : Zone) (zmrcGeom rodizioGeom : γ)
    (mergeThr : Nat) (deliveries : List Delivery) :
    Option (List (String × ClusterData γ)) := do
  let minPts := minPointsPerCluster deliveries
  let zm := ptsZmrc zmrcShape deliveries
  let rod := ptsRodizio zmrcShape rodizioShape deliveries
  let outside := ptsOutside zmrcShape rodizioShape deliveries
  let cm0 := outsideClusters gops mergeThr outside
  let step1 ←
    if minPts ≤ zm.length then
      some (cm0,
        some ("ZMRC",
          ({ geometry := zmrcGeom, members := zm.map (fun p => p.1),
             requires_zmrc := true, requires_rodizio := false } : ClusterData γ)))
    else
      (redistributeZonePoints gops true zm cm0).map (fun cm1 => (cm1, none))
  let step2 ←
    if minPts ≤ rod.length then
      some (step1.1,
        some ("Rodizio",
          ({ geometry := rodizioGeom, members := rod.map (fun p => p.1),
             requires_zmrc := false, requires_rodizio := true } : ClusterData γ)))
    else
      (redistributeZonePoints gops false rod step1.1).map (fun cm2 => (cm2, none))
  let allClusters := step2.1 ++ step1.2.toList ++ step2.2.toList
  pure (forceMergeClusters gops minPts allClusters)

/-- Trivial geometry for the clustering examples: all geometric content
erased, all distances zero. -/
def unitGeomOps : GeomOps Unit :=
  { buffer := fun _ => ()
    unionList := fun _ => ()
    pointCentroidDist := fun _ _ => 0
    centroidDist := fun _ _ => 0
    pointDist := fun _ _ => 0 }

/-- Two undersized adjacent clusters for the force-merge run. -/
def csAB : List (String × ClusterData Unit) :=
  [("Cluster 1", { geometry := (), members := [1], requires_zmrc := true,
                   requires_rodizio := false }),
   ("Cluster 2", { geometry := (), members := [2, 3], requires_zmrc := false,
                   requires_rodizio := true })]

/-- A zone containing exactly the origin point. -/
def originZone : Zone := fun c => c == (0, 0)

/-- A delivery whose shapely point lies at the origin (inside `originZone`). -/
def dInZone : Delivery := { id := 1, coords := (0, 0), weight_kg := 1, volume_m3 := 1 }

/-- A delivery far outside every example zone. -/
def dOutside : Delivery := { id := 2, coords := (9, 9), weight_kg := 1, volume_m3 := 1 }

/-- The assignment the engine produces on the light-delivery world. -/
def exAssignLight : Assignment :=
  { routeId := 1, vehicle := vSmall, path := [1, 2, 1], distance_m := 10
    deliveries := [(dLight, "Cluster 1")] }

/-- The primary-pass state on the light-delivery world. -/
def exStLight : PState :=
  { used := [1], assignments := [exAssignLight], routeId := 2 }

/-- The engine result on the light-delivery world. -/
def exResLight : HeurResult :=
  { assignments := [exAssignLight], warnings := [] }

/-- The assignment the engine produces on the heavy-delivery world. -/
def exAssignHeavy : Assignment :=
  { routeId := 1, vehicle := vSmall, path := [1, 2, 1], distance_m := 10
    deliveries := [(dHeavy, "Cluster 1")] }

/-- The engine result on the heavy-delivery world. -/
def exResHeavy : HeurResult :=
  { assignments := [exAssignHeavy], warnings := [] }

/-! ### Helper lemmas -/

theorem twoOptScan_cost_le (ops : GraphOps) (G : RoadGraph) :
    ∀ (ps : List (Nat × Nat)) (best : List Node) (cost : Nat) (imp : Bool),
      (twoOptScan ops G ps best cost imp).2.1 ≤ cost := by
  intro ps
  induction ps with
  | nil => intro best cost imp; simp [twoOptScan]
  | cons p rest ih =>
      intro best cost imp
      obtain ⟨i, j⟩ := p
      simp only [twoOptScan]
      split
      · exact ih best cost imp
      · split
        · exact le_trans (ih _ _ _) (le_of_lt (by assumption))
        · exact ih best cost imp

theorem twoOptScan_flag_or_lt (ops : GraphOps) (G : RoadGraph) :
    ∀ (ps : List (Nat × Nat)) (best : List Node) (cost : Nat) (imp : Bool),
      (twoOptScan ops G ps best cost imp).2.2 = imp ∨
        (twoOptScan ops G ps best cost imp).2.1 < cost := by
  intro ps
  induction ps with
  | nil => intro best cost imp; left; simp [twoOptScan]
  | cons p rest ih =>
      intro best cost imp
      obtain ⟨i, j⟩ := p
      by_cases hskip : j - i = 1
      · simpa [twoOptScan, hskip] using ih best cost imp
      · by_cases hlt : pathLength ops G (reverseSeg best i j) < cost
        · right
          simp only [twoOptScan, if_neg hskip, if_pos hlt]
          exact lt_of_le_of_lt (twoOptScan_cost_le ops G rest _ _ _) hlt
        · simpa [twoOptScan, hskip, hlt] using ih best cost imp

theorem twoOptScan_improved_lt (ops : GraphOps) (G : RoadGraph)
    (ps : List (Nat × Nat)) (best : List Node) (cost : Nat)
    (h : (twoOptScan ops G ps best cost false).2.2 = true) :
    (twoOptScan ops G ps best cost false).2.1 < cost := by
  rcases twoOptScan_flag_or_lt ops G ps best cost false with hflag | hdec
  · rw [h] at hflag; cases hflag
  · exact hdec

theorem twoOptLoop_fuel_irrelevant (ops : GraphOps) (G : RoadGraph) :
    ∀ (f1 f2 : Nat) (best : List Node) (cost : Nat),
      cost < f1 → cost < f2 →
      twoOptLoop ops G f1 best cost = twoOptLoop ops G f2 best cost := by
  intro f1
  induction f1 with
  | zero => intro f2 best cost h1; omega
  | succ f ih =>
      intro f2 best cost h1 h2
      cases f2 with
      | zero => omega
      | succ f2' =>
          simp only [twoOptLoop]
          rcases hscan : twoOptScan ops G (twoOptPairs best.length) best cost false
            with ⟨nb, nc, imp⟩
          cases imp with
          | true =>
              have hlt : nc < cost := by
                have := twoOptScan_improved_lt ops G (twoOptPairs best.length)
                  best cost (by rw [hscan])
                rw [hscan] at this
                exact this
              exact ih f2' nb nc (by omega) (by omega)
          | false => rfl

theorem nearestRemainingAux_mem (ops : GraphOps) (G : RoadGraph) (current : Node) :
    ∀ (rem : List Node) (best : Option (Node × Nat)) (n : Node) (d : Nat),
      nearestRemainingAux ops G current rem best = some (n, d) →
      n ∈ rem ∨ (∃ bd, best = some (n, bd)) := by
  intro rem
  induction rem with
  | nil => intro best n d h; right; exact ⟨d, h⟩
  | cons x rest ih =>
      intro best n d h
      cases hsp : ops.spLength G current x with
      | none =>
          simp only [nearestRemainingAux, hsp] at h
          rcases ih best n d h with hm | hb
          · exact Or.inl (List.mem_cons_of_mem _ hm)
          · exact Or.inr hb
      | some dist =>
          cases best with
          | none =>
              simp only [nearestRemainingAux, hsp] at h
              rcases ih (some (x, dist)) n d h with hm | ⟨bd, hb⟩
              · exact Or.inl (List.mem_cons_of_mem _ hm)
              · injection hb with hb'
                injection hb' with h1 h2
                subst h1; exact Or.inl (List.mem_cons_self _ _)
          | some p =>
              obtain ⟨bn, bd⟩ := p
              by_cases hd : dist < bd
              · simp only [nearestRemainingAux, hsp, if_pos hd] at h
                rcases ih (some (x, dist)) n d h with hm | ⟨bd2, hb⟩
                · exact Or.inl (List.mem_cons_of_mem _ hm)
                · injection hb with hb'
                  injection hb' with h1 h2
                  subst h1; exact Or.inl (List.mem_cons_self _ _)
              · simp only [nearestRemainingAux, hsp, if_neg hd] at h
                rcases ih (some (bn, bd)) n d h with hm | ⟨bd2, hb⟩
                · exact Or.inl (List.mem_cons_of_mem _ hm)
                · injection hb with hb'
                  injection hb' with h1 h2
                  subst h1
                  exact Or.inr ⟨bd, rfl⟩

theorem nearestRemaining_mem (ops : GraphOps) (G : RoadGraph) (current : Node)
    (remaining : List Node) (n : Node)
    (h : nearestRemaining ops G current remaining = some n) : n ∈ remaining := by
  simp only [nearestRemaining, Option.map_eq_some'] at h
  obtain ⟨⟨n', d⟩, hfind, heq⟩ := h
  cases heq
  rcases nearestRemainingAux_mem ops G current remaining none n' d hfind with hm | ⟨bd, hb⟩
  · exact hm
  · cases hb

theorem strictLoop_fuel_irrelevant (ops : GraphOps) (G : RoadGraph) :
    ∀ (f1 f2 : Nat) (remaining : List Node) (current : Node) (acc : List Node),
      remaining.length ≤ f1 → remaining.length ≤ f2 →
      strictLoop ops G f1 remaining current acc
        = strictLoop ops G f2 remaining current acc := by
  intro f1
  induction f1 with
  | zero =>
      intro f2 remaining current acc h1 h2
      have hrem : remaining = [] := List.length_eq_zero.mp (by omega)
      subst hrem
      cases f2 with
      | zero => rfl
      | succ f2' =>
          simp [strictLoop, nearestRemaining, nearestRemainingAux]
  | succ f ih =>
      intro f2 remaining current acc h1 h2
      cases f2 with
      | zero =>
          have hrem : remaining = [] := List.length_eq_zero.mp (by omega)
          subst hrem
          simp [strictLoop, nearestRemaining, nearestRemainingAux]
      | succ f2' =>
          cases hsel : nearestRemaining ops G current remaining with
          | none => simp only [strictLoop, hsel]
          | some nxt =>
              have hmem := nearestRemaining_mem ops G current remaining nxt hsel
              have hlen := List.length_erase_add_one hmem
              cases hp : ops.spPath G current nxt with
              | some p =>
                  simp only [strictLoop, hsel, hp]
                  exact ih f2' (remaining.erase nxt) nxt (acc ++ p.drop 1)
                    (by omega) (by omega)
              | none =>
                  simp only [strictLoop, hsel, hp]
                  exact ih f2' (remaining.erase nxt) current acc
                    (by omega) (by omega)

theorem insertByKey_ne_nil (x : Int × Vehicle) (l : List (Int × Vehicle)) :
    insertByKey x l ≠ [] := by
  cases l with
  | nil => simp [insertByKey]
  | cons y ys =>
      simp only [insertByKey]
      split <;> simp

theorem sortByKey_ne_nil (x : Int × Vehicle) (xs : List (Int × Vehicle)) :
    sortByKey (x :: xs) ≠ [] := by
  simp only [sortByKey]
  exact insertByKey_ne_nil x (sortByKey xs)

theorem twoOptScan_true_stays (ops : GraphOps) (G : RoadGraph) :
    ∀ (ps : List (Nat × Nat)) (best : List Node) (cost : Nat),
      (twoOptScan ops G ps best cost true).2.2 = true := by
  intro ps
  induction ps with
  | nil => intro best cost; simp [twoOptScan]
  | cons p rest ih =>
      intro best cost
      obtain ⟨i, j⟩ := p
      by_cases hskip : j - i = 1
      · simpa [twoOptScan, hskip] using ih best cost
      · by_cases hlt : pathLength ops G (reverseSeg best i j) < cost
        · simpa [twoOptScan, hskip, hlt] using ih _ _
        · simpa [twoOptScan, hskip, hlt] using ih best cost

theorem twoOptScan_noimp (ops : GraphOps) (G : RoadGraph) :
    ∀ (ps : List (Nat × Nat)) (best : List Node) (cost : Nat)
      (b' : List Node) (c' : Nat),
      twoOptScan ops G ps best cost false = (b', c', false) →
      b' = best ∧ c' = cost ∧
        ∀ i j, (i, j) ∈ ps → j - i ≠ 1 →
          ¬ pathLength ops G (reverseSeg best i j) < cost := by
  intro ps
  induction ps with
  | nil =>
      intro best cost b' c' h
      simp only [twoOptScan, Prod.mk.injEq] at h
      exact ⟨h.1.symm, h.2.1.symm, by simp⟩
  | cons p rest ih =>
      intro best cost b' c' h
      obtain ⟨i, j⟩ := p
      by_cases hskip : j - i = 1
      · simp only [twoOptScan, if_pos hskip] at h
        obtain ⟨h1, h2, h3⟩ := ih best cost b' c' h
        refine ⟨h1, h2, ?_⟩
        intro i' j' hmem hne
        rcases List.mem_cons.mp hmem with heq | hmem'
        · cases heq; exact absurd hskip hne
        · exact h3 i' j' hmem' hne
      · by_cases hlt : pathLength ops G (reverseSeg best i j) < cost
        · exfalso
          simp only [twoOptScan, if_neg hskip, if_pos hlt] at h
          have := twoOptScan_true_stays ops G rest
            (reverseSeg best i j) (pathLength ops G (reverseSeg best i j))
          rw [h] at this
          simp at this
        · simp only [twoOptScan, if_neg hskip, if_neg hlt] at h
          obtain ⟨h1, h2, h3⟩ := ih best cost b' c' h
          refine ⟨h1, h2, ?_⟩
          intro i' j' hmem hne
          rcases List.mem_cons.mp hmem with heq | hmem'
          · cases heq; exact hlt
          · exact h3 i' j' hmem' hne

theorem twoOptScan_cost_eq (ops : GraphOps) (G : RoadGraph) :
    ∀ (ps : List (Nat × Nat)) (best : List Node) (cost : Nat) (imp : Bool),
      cost = pathLength ops G best →
      (twoOptScan ops G ps best cost imp).2.1
        = pathLength ops G (twoOptScan ops G ps best cost imp).1 := by
  intro ps
  induction ps with
  | nil => intro best cost imp h; simpa [twoOptScan] using h
  | cons p rest ih =>
      intro best cost imp h
      obtain ⟨i, j⟩ := p
      by_cases hskip : j - i = 1
      · simpa [twoOptScan, hskip] using ih best cost imp h
      · by_cases hlt : pathLength ops G (reverseSeg best i j) < cost
        · simpa [twoOptScan, hskip, hlt] using ih (reverseSeg best i j) _ true rfl
        · simpa [twoOptScan, hskip, hlt] using ih best cost imp h

theorem twoOptLoop_localopt (ops : GraphOps) (G : RoadGraph) :
    ∀ (fuel : Nat) (best : List Node) (cost : Nat),
      cost = pathLength ops G best → cost < fuel →
      pathLength ops G (twoOptLoop ops G fuel best cost) ≤ cost ∧
        (∀ i j, (i, j) ∈ twoOptPairs (twoOptLoop ops G fuel best cost).length →
          j - i ≠ 1 →
          ¬ pathLength ops G (reverseSeg (twoOptLoop ops G fuel best cost) i j)
              < pathLength ops G (twoOptLoop ops G fuel best cost)) := by
  intro fuel
  induction fuel with
  | zero => intro best cost hc hf; omega
  | succ f ih =>
      intro best cost hc hf
      rcases hscan : twoOptScan ops G (twoOptPairs best.length) best cost false
        with ⟨nb, nc, imp⟩
      cases imp with
      | true =>
          have hnc : nc = pathLength ops G nb := by
            have := twoOptScan_cost_eq ops G (twoOptPairs best.length) best cost
              false hc
            rw [hscan] at this
            exact this
          have hlt : nc < cost := by
            have := twoOptScan_improved_lt ops G (twoOptPairs best.length)
              best cost (by rw [hscan])
            rw [hscan] at this
            exact this
          have hres : twoOptLoop ops G (f + 1) best cost
              = twoOptLoop ops G f nb nc := by
            simp only [twoOptLoop, hscan]
          rw [hres]
          obtain ⟨hle, hopt⟩ := ih nb nc hnc (by omega)
          exact ⟨le_trans hle (le_of_lt hlt), hopt⟩
      | false =>
          have hres : twoOptLoop ops G (f + 1) best cost = best := by
            simp only [twoOptLoop, hscan]
          rw [hres]
          obtain ⟨h1, h2, h3⟩ := twoOptScan_noimp ops G (twoOptPairs best.length)
            best cost nb nc hscan
          rw [hc] at h3
          exact ⟨le_of_eq hc.symm, h3⟩

/-- C7: every reversal accepted by the 2-opt scan strictly decreases the
`path_length` cost (third conjunct: the `improved` flag is only raised
together with a strict cost decrease); the `while improved` loop terminates
(fourth conjunct: granting the loop any extra fuel beyond the bound at which
it is run changes nothing, i.e. it halts on its own); and the returned route
costs no more than the input and admits no considered segment reversal
(`i < j`, `j - i ≠ 1`) of strictly smaller cost — a local optimum. -/
theorem two_opt_monotone_terminates_local_opt (ops : GraphOps) (G : RoadGraph)
    (route : List Node) :
    pathLength ops G (twoOptFixed ops G route) ≤ pathLength ops G route
    ∧ (∀ i j, (i, j) ∈ twoOptPairs (twoOptFixed ops G route).length →
        j - i ≠ 1 →
        ¬ pathLength ops G (reverseSeg (twoOptFixed ops G route) i j)
            < pathLength ops G (twoOptFixed ops G route))
    ∧ (∀ (ps : List (Nat × Nat)) (best : List Node) (cost : Nat),
        (twoOptScan ops G ps best cost false).2.2 = true →
        (twoOptScan ops G ps best cost false).2.1 < cost)
    ∧ (∀ extra, twoOptLoop ops G ((pathLength ops G route).succ + extra) route
        (pathLength ops G route) = twoOptFixed ops G route) := by
  have hmain := twoOptLoop_localopt ops G (pathLength ops G route).succ route
    (pathLength ops G route) rfl (Nat.lt_succ_self _)
  refine ⟨hmain.1, hmain.2, ?_, ?_⟩
  · intro ps best cost h
    exact twoOptScan_improved_lt ops G ps best cost h
  · intro extra
    exact twoOptLoop_fuel_irrelevant ops G _ _ route (pathLength ops G route)
      (by omega) (Nat.lt_succ_self _)

/-- Witness for C7 at a concrete route: the loop shortens `[1,2,1,2,1]`, the
considered reversal `(1,3)` cannot improve the local optimum, the scan that
accepts `(1,3)` strictly decreases the cost from 20, and extra fuel does not
change the loop's result. -/
theorem two_opt_monotone_terminates_local_opt_witness :
    pathLength (completeOps 5) exG2 (twoOptFixed (completeOps 5) exG2 [1, 2, 1, 2, 1])
        ≤ pathLength (completeOps 5) exG2 [1, 2, 1, 2, 1]
    ∧ ¬ pathLength (completeOps 5) exG2
          (reverseSeg (twoOptFixed (completeOps 5) exG2 [1, 2, 1, 2, 1]) 1 3)
        < pathLength (completeOps 5) exG2 (twoOptFixed (completeOps 5) exG2 [1, 2, 1, 2, 1])
    ∧ (twoOptScan (completeOps 5) exG2 [(1, 3)] [1, 2, 1, 2, 1] 20 false).2.1 < 20
    ∧ twoOptLoop (completeOps 5) exG2 ((pathLength (completeOps 5) exG2 [1, 2, 1, 2, 1]).succ + 7)
        [1, 2, 1, 2, 1] (pathLength (completeOps 5) exG2 [1, 2, 1, 2, 1])
        = twoOptFixed (completeOps 5) exG2 [1, 2, 1, 2, 1] := by
  refine ⟨(two_opt_monotone_terminates_local_opt (completeOps 5) exG2 [1, 2, 1, 2, 1]).1,
    (two_opt_monotone_terminates_local_opt (completeOps 5) exG2 [1, 2, 1, 2, 1]).2.1
      1 3 (by decide) (by decide),
    (two_opt_monotone_terminates_local_opt (completeOps 5) exG2 [1, 2, 1, 2, 1]).2.2.1
      [(1, 3)] [1, 2, 1, 2, 1] 20 (by decide),
    (two_opt_monotone_terminates_local_opt (completeOps 5) exG2 [1, 2, 1, 2, 1]).2.2.2 7⟩

theorem getLast?_drop_one {α : Type} (p : List α) (h : p.drop 1 ≠ []) :
    (p.drop 1).getLast? = p.getLast? := by
  cases p with
  | nil => simp at h
  | cons a t =>
      cases t with
      | nil => simp at h
      | cons b t' => simp [List.getLast?_cons_cons]

theorem getLast?_append_right {α : Type} (l1 l2 : List α) (h : l2 ≠ []) :
    (l1 ++ l2).getLast? = l2.getLast? := by
  rw [List.getLast?_append]
  cases hl : l2.getLast? with
  | none => exact absurd (List.getLast?_eq_none_iff.mp hl) h
  | some x => rfl

theorem strictLoop_last (ops : GraphOps) (G : RoadGraph) (hpe : PathEnds ops) :
    ∀ (fuel : Nat) (remaining : List Node) (current : Node) (acc : List Node)
      (w : Node), (w :: acc).getLast? = some current →
      (w :: (strictLoop ops G fuel remaining current acc).1).getLast?
        = some (strictLoop ops G fuel remaining current acc).2 := by
  intro fuel
  induction fuel with
  | zero => intro remaining current acc w h; simpa [strictLoop] using h
  | succ f ih =>
      intro remaining current acc w h
      cases hsel : nearestRemaining ops G current remaining with
      | none => simpa [strictLoop, hsel] using h
      | some nxt =>
          cases hp : ops.spPath G current nxt with
          | some p =>
              simp only [strictLoop, hsel, hp]
              apply ih
              obtain ⟨hne, hhead, hlast⟩ := hpe G current nxt p hp
              by_cases hdrop : p.drop 1 = []
              · have hcn : current = nxt := by
                  cases p with
                  | nil => exact absurd rfl hne
                  | cons x t =>
                      simp only [List.drop_succ_cons, List.drop_zero] at hdrop
                      subst hdrop
                      simp only [List.head?_cons, Option.some.injEq] at hhead
                      simp only [List.getLast?_singleton, Option.some.injEq] at hlast
                      rw [← hhead, ← hlast]
                rw [hdrop, List.append_nil, ← hcn]
                exact h
              · have : (w :: (acc ++ p.drop 1)) = (w :: acc) ++ p.drop 1 := by simp
                rw [this, getLast?_append_right _ _ hdrop,
                  getLast?_drop_one p hdrop, hlast]
          | none =>
              simp only [strictLoop, hsel, hp]
              exact ih _ _ _ _ h

theorem arcOps_pathEnds (arcs : List (Node × Node)) (w : Nat) :
    PathEnds (arcOps arcs w) := by
  intro G u v p h
  simp only [arcOps] at h
  by_cases hn : (hasNode G u && hasNode G v) = true
  · rw [if_pos hn] at h
    by_cases huv : u = v
    · subst huv
      have hc : (u == u) = true := by simp
      rw [if_pos hc] at h
      injection h with h
      subst h
      simp
    · have hc : (u == v) = false := by simp [huv]
      rw [if_neg (by simp [hc] : ¬ (u == v) = true)] at h
      by_cases harc : arcs.contains (u, v) = true
      · rw [if_pos harc] at h
        injection h with h
        subst h
        simp
      · rw [if_neg harc] at h
        cases h
  · rw [if_neg hn] at h
    cases h

/-- C4 counterexample: on the directed world where node 1 (the depot) reaches
node 2 but node 2 cannot return (osmnx road graphs are directed, so this is
realistic), `build_full_path_strict` on the sequence `[1, 2, 1]` emits
`[1, 2]` after the final `except` branch only warns — the produced path does
not end at the depot node, contradicting the claim that every produced path
begins and ends at the depot. -/
theorem route_closure_counterexample :
    buildFullPathStrict (arcOps [(1, 2)] 7) exG2 [1, 2, 1] = [1, 2]
    ∧ (buildFullPathStrict (arcOps [(1, 2)] 7) exG2 [1, 2, 1]).getLast? ≠ some 1 := by
  constructor
  · rfl
  · decide

/-- C4 amended: a path produced by `build_full_path_strict` always *begins*
at the depot node; it *ends* at the depot node whenever the shortest path
from the last reached node back to the depot exists, and otherwise ends
where the loop stopped.  For the virtual-graph strategy the rotated TSP
cycle begins at the depot and the stitched path ends exactly at the rotated
cycle's last node — so that strategy's route ends at the depot only when the
rotated cycle does (the rotation `tsp_path[1:] + tsp_path[:1]` breaks the
cycle closure unless the solver's cycle already started at the depot). -/
theorem route_builder_endpoints_amended (ops : GraphOps) (G : RoadGraph)
    (w : Node) (rest : List Node) (hpe : PathEnds ops) :
    (buildFullPathStrict ops G (w :: rest)).head? = some w
    ∧ ((buildFullPathStrict ops G (w :: rest)).getLast?
          = some (rest.getLast?.getD w)
        ∨ ops.spPath G
            (strictLoop ops G rest.dropLast.length rest.dropLast w []).2
            (rest.getLast?.getD w) = none)
    ∧ (∀ (l r : List Node), rotateToWarehouse w l = Except.ok r →
        r.head? = some w)
    ∧ (∀ tspPath : List Node, tspPath ≠ [] →
        (stitchTspPath ops G tspPath).1.getLast? = tspPath.getLast?) := by
  refine ⟨rfl, ?_, ?_, ?_⟩
  · set back := rest.getLast?.getD w with hback
    set res := strictLoop ops G rest.dropLast.length rest.dropLast w [] with hres
    have hlast : (w :: res.1).getLast? = some res.2 := by
      apply strictLoop_last ops G hpe
      simp
    cases hret : ops.spPath G res.2 back with
    | none => exact Or.inr rfl
    | some p =>
        left
        obtain ⟨hne, hhead, hpl⟩ := hpe G res.2 back p hret
        have hunf : buildFullPathStrict ops G (w :: rest)
            = w :: (res.1 ++ p.drop 1) := by
          simp only [buildFullPathStrict, ← hback, ← hres, hret]
        rw [hunf]
        by_cases hdrop : p.drop 1 = []
        · have hcb : res.2 = back := by
            cases p with
            | nil => exact absurd rfl hne
            | cons x t =>
                simp only [List.drop_succ_cons, List.drop_zero] at hdrop
                subst hdrop
                simp only [List.head?_cons, Option.some.injEq] at hhead
                simp only [List.getLast?_singleton, Option.some.injEq] at hpl
                rw [← hhead, ← hpl]
          rw [hdrop, List.append_nil, hlast, hcb]
        · have hsplit : (w :: (res.1 ++ p.drop 1)) = (w :: res.1) ++ p.drop 1 := by
            simp
          rw [hsplit, getLast?_append_right _ _ hdrop,
            getLast?_drop_one p hdrop, hpl]
  · intro l r hrot
    cases l with
    | nil => cases hrot
    | cons x t =>
        simp only [rotateToWarehouse] at hrot
        split_ifs at hrot with hmem
        · rw [Except.ok.injEq] at hrot
          subst hrot
          have hidx : (x :: t).indexOf w < (x :: t).length :=
            List.indexOf_lt_length.mpr hmem
          have hw : ((x :: t).drop ((x :: t).indexOf w)).head? = some w := by
            rw [List.head?_drop, List.getElem?_eq_getElem hidx,
              List.getElem_indexOf hidx]
          rw [List.head?_append, hw]
          rfl
  · intro tspPath hne
    cases hl : tspPath.getLast? with
    | none => exact absurd (List.getLast?_eq_none_iff.mp hl) hne
    | some last =>
        simp only [stitchTspPath, hl]
        rw [List.getLast?_concat]

/-- Witness for the amended C4 on the symmetric two-node world: the built
path starts at the depot, ends at the depot because the return path exists,
the rotated cycle `[2, 1]` starts at the depot after rotation, and the
stitched path of `[1, 2, 1]` ends at that cycle's last node. -/
theorem route_builder_endpoints_amended_witness :
    (buildFullPathStrict (arcOps [(1, 2), (2, 1)] 7) exG2 [1, 2, 1]).head? = some 1
    ∧ ((buildFullPathStrict (arcOps [(1, 2), (2, 1)] 7) exG2 [1, 2, 1]).getLast?
          = some 1
        ∨ (arcOps [(1, 2), (2, 1)] 7).spPath exG2
            (strictLoop (arcOps [(1, 2), (2, 1)] 7) exG2 1 [2] 1 []).2 1 = none)
    ∧ ([1, 2] : List Node).head? = some 1
    ∧ (stitchTspPath (arcOps [(1, 2), (2, 1)] 7) exG2 [1, 2, 1]).1.getLast?
        = ([1, 2, 1] : List Node).getLast? := by
  refine ⟨(route_builder_endpoints_amended (arcOps [(1, 2), (2, 1)] 7) exG2 1 [2, 1]
      (arcOps_pathEnds _ _)).1,
    (route_builder_endpoints_amended (arcOps [(1, 2), (2, 1)] 7) exG2 1 [2, 1]
      (arcOps_pathEnds _ _)).2.1,
    (route_builder_endpoints_amended (arcOps [(1, 2), (2, 1)] 7) exG2 1 [2, 1]
      (arcOps_pathEnds _ _)).2.2.1 [2, 1] [1, 2] (by rfl),
    (route_builder_endpoints_amended (arcOps [(1, 2), (2, 1)] 7) exG2 1 [2, 1]
      (arcOps_pathEnds _ _)).2.2.2 [1, 2, 1] (by decide)⟩

/-- C5 counterexample: `filter_graph_for_vehicle` consults only the ZMRC and
VER shapes; the Rodizio Municipal rotation zone is never read there (it is
only checked at cluster level by `is_vehicle_allowed_for_cluster`).  So for a
Truck — which the claim lists as lacking permission in the rotation zone —
the filtered graph retains a node lying inside the Rodizio polygon. -/
theorem zone_exclusion_counterexample :
    vTruck.vtype = VType.Truck
    ∧ rodizioPointZone (5, 5) = true
    ∧ (1, ((5 : Int), (5 : Int)))
        ∈ (filterGraphForVehicle exGRod vTruck zoneEmpty [] false).nodes := by
  refine ⟨rfl, rfl, ?_⟩
  decide

/-- C5 amended: the zone exclusion holds exactly for the zones the filter
reads — for a Truck, and for a VUC without AETC, no node of the filtered
graph lies inside the ZMRC polygon; for a Truck, and for a VUC when the first
VER record's description prohibits VUCs, no node lies inside any VER polygon.
The Rodizio rotation zone is not filtered at graph level. -/
theorem filter_zone_exclusion_amended (G : RoadGraph) (v : Vehicle)
    (zmrc : Zone) (verShapes : List Zone) (verb : Bool) (nc : Node × Coord)
    (hmem : nc ∈ (filterGraphForVehicle G v zmrc verShapes verb).nodes) :
    ((v.vtype = VType.Truck ∨ (v.vtype = VType.VUC ∧ v.has_aetc = false)) →
      zmrc nc.2 = false)
    ∧ ((v.vtype = VType.Truck ∨ (v.vtype = VType.VUC ∧ verb = true)) →
      ∀ z ∈ verShapes, z nc.2 = false) := by
  simp only [filterGraphForVehicle, List.mem_filter] at hmem
  obtain ⟨hin, hcond⟩ := hmem
  rw [decide_eq_true_eq] at hcond
  push_neg at hcond
  obtain ⟨hA, hB⟩ := hcond
  constructor
  · intro hveh
    by_contra hz
    rw [Bool.not_eq_false] at hz
    rcases hveh with ht | ⟨hv, hb⟩
    · exact (hA hz).1 ht
    · exact (hA hz).2 hv hb
  · intro hveh z hzmem
    by_contra hz
    rw [Bool.not_eq_false] at hz
    have hany : verShapes.any (fun z => z nc.2) = true :=
      List.any_eq_true.mpr ⟨z, hzmem, hz⟩
    rcases hveh with ht | ⟨hv, hb⟩
    · exact (hB hany).1 ht
    · exact (hB hany).2 hv hb

/-- Witness for the amended C5: with the ZMRC polygon containing the origin,
the Truck-filtered graph keeps node 2 and the theorem yields that node 2 lies
neither in ZMRC nor in any VER shape. -/
theorem filter_zone_exclusion_amended_witness :
    originZone ((3 : Int), (0 : Int)) = false
    ∧ ∀ z ∈ ([] : List Zone), z ((3 : Int), (0 : Int)) = false := by
  refine ⟨?_, ?_⟩
  · exact (filter_zone_exclusion_amended exG2 vTruck originZone [] false
      (2, (3, 0)) (by decide)).1 (Or.inl rfl)
  · exact (filter_zone_exclusion_amended exG2 vTruck originZone [] false
      (2, (3, 0)) (by decide)).2 (Or.inl rfl)

theorem filterMap_if {α β : Type} (P : α → Bool) (f : α → β) (l : List α) :
    l.filterMap (fun a => if P a then some (f a) else none)
      = (l.filter P).map f := by
  induction l with
  | nil => rfl
  | cons x xs ih =>
      by_cases h : P x = true <;>
        simp [List.filterMap_cons, List.filter_cons, h, ih]

theorem sortByKey_const (l : List (Int × Vehicle))
    (h : ∀ p ∈ l, ∀ q ∈ l, p.1 = q.1) : sortByKey l = l := by
  induction l with
  | nil => rfl
  | cons x xs ih =>
      have hxs : sortByKey xs = xs :=
        ih (fun p hp q hq =>
          h p (List.mem_cons_of_mem _ hp) q (List.mem_cons_of_mem _ hq))
      simp only [sortByKey, hxs]
      cases xs with
      | nil => rfl
      | cons y ys =>
          have hxy : x.1 = y.1 :=
            h x (List.mem_cons_self _ _) y
              (List.mem_cons_of_mem _ (List.mem_cons_self _ _))
          simp [insertByKey, le_of_eq hxy]

theorem buildCandidates_eq (ops : GraphOps) (G : RoadGraph) (zmrc : Zone)
    (verShapes : List Zone) (verb : Bool) (vehicles : List Vehicle)
    (cds : List Delivery) (d0 : Delivery) (wh : Coord) :
    buildCandidates ops G zmrc verShapes verb vehicles cds d0 wh
      = (vehicles.filter (fun v => cds.all (fun d =>
          canVehicleReachDelivery ops
            (gvehicleFor G zmrc verShapes verb vehicles v) d))).map
          (fun v => (scoreVehicleForDelivery v d0 wh, v)) :=
  filterMap_if _ _ vehicles

/-- C9: `score_vehicle_for_delivery` never reads its vehicle argument, so it
returns the same value for every vehicle (first conjunct, a definitional
fact); hence in the primary pass all candidates carry identical scores, the
stable `sorted(...)` leaves the candidate list unchanged (second conjunct),
and the selected "best" vehicle `sorted(candidates)[0][1]` is exactly the
first vehicle in fleet iteration order that passes the full reachability
pre-check (third conjunct). -/
theorem score_constant_first_candidate_selected :
    (∀ (v1 v2 : Vehicle) (d : Delivery) (wh : Coord),
      scoreVehicleForDelivery v1 d wh = scoreVehicleForDelivery v2 d wh)
    ∧ (∀ (ops : GraphOps) (G : RoadGraph) (zmrc : Zone) (verShapes : List Zone)
        (verb : Bool) (vehicles : List Vehicle) (cds : List Delivery)
        (d0 : Delivery) (wh : Coord),
        sortByKey (buildCandidates ops G zmrc verShapes verb vehicles cds d0 wh)
          = buildCandidates ops G zmrc verShapes verb vehicles cds d0 wh)
    ∧ (∀ (ops : GraphOps) (G : RoadGraph) (zmrc : Zone) (verShapes : List Zone)
        (verb : Bool) (vehicles : List Vehicle) (cds : List Delivery)
        (d0 : Delivery) (wh : Coord),
        ((sortByKey (buildCandidates ops G zmrc verShapes verb vehicles cds d0 wh)).head?).map
            (fun p => p.2)
          = (vehicles.filter (fun v => cds.all (fun d =>
              canVehicleReachDelivery ops
                (gvehicleFor G zmrc verShapes verb vehicles v) d))).head?) := by
  have hconst : ∀ (ops : GraphOps) (G : RoadGraph) (zmrc : Zone)
      (verShapes : List Zone) (verb : Bool) (vehicles : List Vehicle)
      (cds : List Delivery) (d0 : Delivery) (wh : Coord),
      sortByKey (buildCandidates ops G zmrc verShapes verb vehicles cds d0 wh)
        = buildCandidates ops G zmrc verShapes verb vehicles cds d0 wh := by
    intro ops G zmrc verShapes verb vehicles cds d0 wh
    apply sortByKey_const
    rw [buildCandidates_eq]
    intro p hp q hq
    obtain ⟨a, _, rfl⟩ := List.mem_map.mp hp
    obtain ⟨b, _, rfl⟩ := List.mem_map.mp hq
    rfl
  refine ⟨fun v1 v2 d wh => rfl, hconst, ?_⟩
  intro ops G zmrc verShapes verb vehicles cds d0 wh
  rw [hconst, buildCandidates_eq, List.head?_map, Option.map_map]
  cases (vehicles.filter (fun v => cds.all (fun d =>
      canVehicleReachDelivery ops
        (gvehicleFor G zmrc verShapes verb vehicles v) d))).head? with
  | none => rfl
  | some v => rfl

/-- C1 counterexample: the primary pass of `assign_clusters_heuristic`
performs no capacity check at all — `check_capacity` is consulted only by the
leftover pass.  A 100 kg delivery is assigned to a vehicle whose
`max_weight_kg` is 10, so the final assignment map violates the claimed
weight bound. -/
theorem capacity_invariant_counterexample :
    (assignClustersHeuristic (completeOps 5) exG2 zoneEmpty [] false [vSmall]
        [dHeavy] [("Cluster 1", [1])] (0, 0)).map
      (fun r => r.assignments.all withinCapacity) = some false
    ∧ (assignClustersHeuristic (completeOps 5) exG2 zoneEmpty [] false [vSmall]
        [dHeavy] [("Cluster 1", [1])] (0, 0)).map
      (fun r => r.assignments.map
        (fun a => (deliveriesWeight a.deliveries, a.vehicle.max_weight_kg)))
      = some [(100, 10)] := by
  constructor
  · decide
  · decide

theorem deliveriesWeight_append (l : List (Delivery × String)) (p : Delivery × String) :
    deliveriesWeight (l ++ [p]) = deliveriesWeight l + p.1.weight_kg := by
  simp [deliveriesWeight]

theorem deliveriesVolume_append (l : List (Delivery × String)) (p : Delivery × String) :
    deliveriesVolume (l ++ [p]) = deliveriesVolume l + p.1.volume_m3 := by
  simp [deliveriesVolume]

theorem tryAttach_capacity (ops : GraphOps) (G : RoadGraph) (zmrc : Zone)
    (verShapes : List Zone) (verb : Bool) (vehicles : List Vehicle) (d : Delivery) :
    ∀ (asg asg' : List Assignment),
      tryAttach ops G zmrc verShapes verb vehicles d asg = some asg' →
      (∀ a ∈ asg, withinCapacity a = true) →
      ∀ a ∈ asg', withinCapacity a = true := by
  intro asg
  induction asg with
  | nil => intro asg' h; cases h
  | cons a rest ih =>
      intro asg' h hcap
      by_cases hc : (canVehicleReachDelivery ops
          (gvehicleFor G zmrc verShapes verb vehicles a.vehicle) d
          && checkCapacity a d) = true
      · simp only [tryAttach, if_pos hc, Option.some.injEq] at h
        subst h
        intro b hb
        rcases List.mem_cons.mp hb with rfl | hbr
        · have hchk : checkCapacity a d = true := ((Bool.and_eq_true _ _).mp hc).2
          simp only [checkCapacity, Bool.and_eq_true, decide_eq_true_eq] at hchk
          simp only [withinCapacity, Bool.and_eq_true, decide_eq_true_eq,
            deliveriesWeight_append, deliveriesVolume_append]
          exact hchk
        · exact hcap b (List.mem_cons_of_mem _ hbr)
      · simp only [tryAttach, if_neg hc, Option.map_eq_some'] at h
        obtain ⟨r, hr, rfl⟩ := h
        intro b hb
        rcases List.mem_cons.mp hb with rfl | hbr
        · exact hcap b (List.mem_cons_self _ _)
        · exact ih r hr (fun x hx => hcap x (List.mem_cons_of_mem _ hx)) b hbr

theorem leftoverPass_capacity (ops : GraphOps) (G : RoadGraph) (zmrc : Zone)
    (verShapes : List Zone) (verb : Bool) (vehicles : List Vehicle) :
    ∀ (ds : List Delivery) (asg : List Assignment),
      (∀ a ∈ asg, withinCapacity a = true) →
      ∀ a ∈ (leftoverPass ops G zmrc verShapes verb vehicles asg ds).1,
        withinCapacity a = true := by
  intro ds
  induction ds with
  | nil => intro asg hcap; simpa [leftoverPass] using hcap
  | cons d rest ih =>
      intro asg hcap
      cases hatt : tryAttach ops G zmrc verShapes verb vehicles d asg with
      | some asg' =>
          simp only [leftoverPass, hatt]
          exact ih asg' (tryAttach_capacity ops G zmrc verShapes verb vehicles d
            asg asg' hatt hcap)
      | none =>
          simp only [leftoverPass, hatt]
          exact ih asg hcap

/-- C1 amended: the capacity invariant holds for the final assignment map
whenever it already holds for the assignments produced by the primary pass —
`check_capacity` guards every attachment of the leftover/reassignment pass,
and an attachment even (re)establishes the bound for the assignment it
touches.  The primary pass itself performs no capacity check (see the
counterexample), so the invariant is conditional on the primary-pass load. -/
theorem capacity_invariant_amended (ops : GraphOps) (G : RoadGraph) (zmrc : Zone)
    (verShapes : List Zone) (verb : Bool) (vehicles : List Vehicle)
    (deliveries : List Delivery) (clusterMapping : List (String × List Nat))
    (wh : Coord) (st : PState)
    (hprim : primaryPass ops G zmrc verShapes verb vehicles deliveries wh
      clusterMapping initPState = some st)
    (hcap : ∀ a ∈ st.assignments, withinCapacity a = true)
    (res : HeurResult)
    (hres : assignClustersHeuristic ops G zmrc verShapes verb vehicles
      deliveries clusterMapping wh = some res) :
    ∀ a ∈ res.assignments, withinCapacity a = true := by
  simp only [assignClustersHeuristic, hprim, Option.bind_eq_bind,
    Option.some_bind, Option.pure_def, Option.some.injEq] at hres
  subst hres
  exact leftoverPass_capacity ops G zmrc verShapes verb vehicles _ _ hcap

/-- Witness for the amended C1: on the light-delivery world the primary pass
stays within capacity, so the final assignment does too. -/
theorem capacity_invariant_amended_witness :
    withinCapacity exAssignLight = true :=
  capacity_invariant_amended (completeOps 5) exG2 zoneEmpty [] false [vSmall]
    [dLight] [("Cluster 1", [1])] (0, 0) exStLight
    (by decide) (by decide) exResLight (by decide) _ (List.mem_cons_self _ _)

theorem lookupDelivery_spec (deliveries : List Delivery) (did : Nat)
    (d : Delivery) (h : lookupDelivery deliveries did = some d) :
    d.id = did ∧ d ∈ deliveries := by
  have hmem := List.mem_of_find?_eq_some h
  have hp := List.find?_some h
  rw [List.mem_reverse] at hmem
  exact ⟨by simpa using hp, hmem⟩

theorem mapM_lookup_spec (deliveries : List Delivery) :
    ∀ (l : List Nat) (cds : List Delivery),
      l.mapM (lookupDelivery deliveries) = some cds →
      ∀ d ∈ cds, ∃ did ∈ l, lookupDelivery deliveries did = some d := by
  intro l
  induction l with
  | nil =>
      intro cds h d hd
      simp only [List.mapM_nil, Option.pure_def, Option.some.injEq] at h
      subst h
      cases hd
  | cons x xs ih =>
      intro cds h d hd
      rw [List.mapM_cons] at h
      cases hx : lookupDelivery deliveries x with
      | none => rw [hx] at h; cases h
      | some dx =>
          rw [hx] at h
          cases hxs : xs.mapM (lookupDelivery deliveries) with
          | none => rw [hxs] at h; cases h
          | some rest =>
              rw [hxs] at h
              simp only [Option.bind_eq_bind, Option.some_bind,
                Option.pure_def, Option.some.injEq] at h
              subst h
              rcases List.mem_cons.mp hd with rfl | hdr
              · exact ⟨x, List.mem_cons_self _ _, hx⟩
              · obtain ⟨did, hdid, hl⟩ := ih rest hxs d hdr
                exact ⟨did, List.mem_cons_of_mem _ hdid, hl⟩

theorem setInsert_mem (x y : Nat) (s : List Nat) :
    y ∈ setInsert x s ↔ y = x ∨ y ∈ s := by
  by_cases h : x ∈ s
  · simp only [setInsert, if_pos h]
    constructor
    · exact Or.inr
    · rintro (rfl | hy)
      · exact h
      · exact hy
  · simp [setInsert, if_neg h]

theorem setInsert_nodup (x : Nat) (s : List Nat) (h : s.Nodup) :
    (setInsert x s).Nodup := by
  by_cases hx : x ∈ s
  · simpa [setInsert, hx] using h
  · simp only [setInsert, if_neg hx]
    exact List.Nodup.cons hx h

theorem validateDeliveries_spec (ops : GraphOps) (Gv : RoadGraph) :
    ∀ (cds : List Delivery) (used : List Nat),
      (∀ x, x ∈ (validateDeliveries ops Gv cds used).2 ↔
        x ∈ used ∨ ∃ p ∈ (validateDeliveries ops Gv cds used).1, p.2.id = x)
      ∧ (used.Nodup → (validateDeliveries ops Gv cds used).2.Nodup)
      ∧ (∀ p ∈ (validateDeliveries ops Gv cds used).1, p.2 ∈ cds) := by
  intro cds
  induction cds with
  | nil =>
      intro used
      refine ⟨?_, fun h => h, ?_⟩
      · intro x; simp [validateDeliveries]
      · intro p hp; simp [validateDeliveries] at hp
  | cons d ds ih =>
      intro used
      cases hn : ops.nearestNode Gv d.coords with
      | some n =>
          obtain ⟨hmem, hnd, hsub⟩ := ih (setInsert d.id used)
          refine ⟨?_, ?_, ?_⟩
          · intro x
            simp only [validateDeliveries, hn]
            rw [hmem x, setInsert_mem]
            constructor
            · rintro ((rfl | hx) | ⟨p, hp, hpx⟩)
              · exact Or.inr ⟨(n, d), List.mem_cons_self _ _, rfl⟩
              · exact Or.inl hx
              · exact Or.inr ⟨p, List.mem_cons_of_mem _ hp, hpx⟩
            · rintro (hx | ⟨p, hp, hpx⟩)
              · exact Or.inl (Or.inr hx)
              · rcases List.mem_cons.mp hp with rfl | hpr
                · exact Or.inl (Or.inl hpx.symm)
                · exact Or.inr ⟨p, hpr, hpx⟩
          · intro hu
            simp only [validateDeliveries, hn]
            exact hnd (setInsert_nodup _ _ hu)
          · intro p hp
            simp only [validateDeliveries, hn] at hp
            rcases List.mem_cons.mp hp with rfl | hpr
            · exact List.mem_cons_self _ _
            · exact List.mem_cons_of_mem _ (hsub p hpr)
      | none =>
          obtain ⟨hmem, hnd, hsub⟩ := ih used
          refine ⟨?_, ?_, ?_⟩
          · intro x
            simpa only [validateDeliveries, hn] using hmem x
          · intro hu
            simpa only [validateDeliveries, hn] using hnd hu
          · intro p hp
            simp only [validateDeliveries, hn] at hp
            exact List.mem_cons_of_mem _ (hsub p hp)

theorem rollbackUsed_mem :
    ∀ (valid : List (Node × Delivery)) (used : List Nat) (x : Nat),
      x ∈ rollbackUsed valid used ↔ x ∈ used ∧ ∀ p ∈ valid, x ≠ p.2.id := by
  intro valid
  induction valid with
  | nil => intro used x; simp [rollbackUsed]
  | cons p ps ih =>
      intro used x
      simp only [rollbackUsed, List.foldl_cons] at ih ⊢
      rw [ih (setEraseAll p.2.id used) x]
      simp only [setEraseAll, List.mem_filter, decide_eq_true_eq]
      constructor
      · rintro ⟨⟨hx, hne⟩, hall⟩
        refine ⟨hx, ?_⟩
        intro q hq
        rcases List.mem_cons.mp hq with rfl | hqr
        · exact hne
        · exact hall q hqr
      · rintro ⟨hx, hall⟩
        exact ⟨⟨hx, hall p (List.mem_cons_self _ _)⟩,
          fun q hq => hall q (List.mem_cons_of_mem _ hq)⟩

theorem rollbackUsed_nodup :
    ∀ (valid : List (Node × Delivery)) (used : List Nat),
      used.Nodup → (rollbackUsed valid used).Nodup := by
  intro valid
  induction valid with
  | nil => intro used h; simpa [rollbackUsed] using h
  | cons p ps ih =>
      intro used h
      simp only [rollbackUsed, List.foldl_cons]
      exact ih (setEraseAll p.2.id used) (List.Nodup.filter _ h)

theorem allAssignedIds_append (l1 l2 : List Assignment) :
    ∀ x, x ∈ allAssignedIds (l1 ++ l2) ↔
      x ∈ allAssignedIds l1 ∨ x ∈ allAssignedIds l2 := by
  intro x
  simp [allAssignedIds]

theorem rollback_state_inv (ops : GraphOps) (Gv : RoadGraph)
    (deliveries : List Delivery) (st : PState) (cds : List Delivery)
    (hinv : PrimInv deliveries st)
    (hcds : ∀ d ∈ cds, d ∈ deliveries ∧ d.id ∉ st.used) :
    PrimInv deliveries
      { st with used := (rollbackUsed (validateDeliveries ops Gv cds st.used).1
          (validateDeliveries ops Gv cds st.used).2) } := by
  obtain ⟨hvmem, hvnd, hvsub⟩ := validateDeliveries_spec ops Gv cds st.used
  have hvalid_not_used : ∀ p ∈ (validateDeliveries ops Gv cds st.used).1,
      p.2.id ∉ st.used := fun p hp => (hcds p.2 (hvsub p hp)).2
  refine ⟨?_, ?_, ?_, hinv.disj⟩
  · exact rollbackUsed_nodup _ _ (hvnd hinv.nodup)
  · intro x
    dsimp only
    rw [rollbackUsed_mem, hvmem x]
    constructor
    · rintro ⟨hx | ⟨p, hp, hpx⟩, hall⟩
      · exact (hinv.mem_iff x).mp hx
      · exact absurd hpx.symm (hall p hp)
    · intro hx
      have hxu : x ∈ st.used := (hinv.mem_iff x).mpr hx
      refine ⟨Or.inl hxu, ?_⟩
      intro p hp heq
      exact hvalid_not_used p hp (heq ▸ hxu)
  · intro x hx
    dsimp only at hx
    rw [rollbackUsed_mem] at hx
    rcases (hvmem x).mp hx.1 with hxu | ⟨p, hp, hpx⟩
    · exact hinv.sub x hxu
    · have := (hcds p.2 (hvsub p hp)).1
      rw [← hpx]
      exact List.mem_map.mpr ⟨p.2, this, rfl⟩

theorem success_state_inv (ops : GraphOps) (Gv : RoadGraph)
    (deliveries : List Delivery) (st : PState) (cds : List Delivery)
    (best : Vehicle) (validated : List Node) (dist : Nat) (cid : String)
    (hinv : PrimInv deliveries st)
    (hcds : ∀ d ∈ cds, d ∈ deliveries ∧ d.id ∉ st.used) :
    PrimInv deliveries
      { used := (validateDeliveries ops Gv cds st.used).2,
        assignments := (st.assignments ++
          [{ routeId := st.routeId, vehicle := best, path := validated,
             distance_m := dist,
             deliveries := ((validateDeliveries ops Gv cds st.used).1.map
               (fun p => (p.2, cid))) }]),
        routeId := st.routeId + 1 } := by
  obtain ⟨hvmem, hvnd, hvsub⟩ := validateDeliveries_spec ops Gv cds st.used
  set A : Assignment :=
    { routeId := st.routeId, vehicle := best, path := validated,
      distance_m := dist,
      deliveries := ((validateDeliveries ops Gv cds st.used).1.map
        (fun p => (p.2, cid))) } with hAdef
  have hA : ∀ x, x ∈ assignmentIds A ↔
      ∃ p ∈ (validateDeliveries ops Gv cds st.used).1, p.2.id = x := by
    intro x
    rw [hAdef]
    simp only [assignmentIds, List.map_map, List.mem_map, Function.comp]
  have hallA : ∀ x, x ∈ allAssignedIds [A] ↔
      ∃ p ∈ (validateDeliveries ops Gv cds st.used).1, p.2.id = x := by
    intro x
    rw [← hA x]
    simp [allAssignedIds]
  have hvalid_not_used : ∀ p ∈ (validateDeliveries ops Gv cds st.used).1,
      p.2.id ∉ st.used := fun p hp => (hcds p.2 (hvsub p hp)).2
  refine ⟨hvnd hinv.nodup, ?_, ?_, ?_⟩
  · intro x
    dsimp only
    rw [hvmem x, allAssignedIds_append _ _ x, hallA x, ← hinv.mem_iff x]
  · intro x hx
    dsimp only at hx
    rcases (hvmem x).mp hx with hxu | ⟨p, hp, hpx⟩
    · exact hinv.sub x hxu
    · have := (hcds p.2 (hvsub p hp)).1
      rw [← hpx]
      exact List.mem_map.mpr ⟨p.2, this, rfl⟩
  · dsimp only
    unfold AssignmentsDisjoint
    rw [List.pairwise_append]
    refine ⟨hinv.disj, List.pairwise_singleton _ _, ?_⟩
    intro a ha b hb x hxa
    rcases List.mem_singleton.mp hb with rfl
    rw [hA x]
    rintro ⟨p, hp, rfl⟩
    have hxu : p.2.id ∈ st.used := (hinv.mem_iff p.2.id).mpr
      (by
        simp only [allAssignedIds, List.mem_flatMap]
        exact ⟨a, ha, hxa⟩)
    exact hvalid_not_used p hp hxu

theorem processCluster_inv (ops : GraphOps) (G : RoadGraph) (zmrc : Zone)
    (verShapes : List Zone) (verb : Bool) (vehicles : List Vehicle)
    (deliveries : List Delivery) (wh : Coord) (st st' : PState)
    (cid : String) (dids : List Nat) (hinv : PrimInv deliveries st)
    (h : processCluster ops G zmrc verShapes verb vehicles deliveries wh st
      cid dids = some st') :
    PrimInv deliveries st' := by
  simp only [processCluster, Option.bind_eq_bind] at h
  cases hm : (dids.filter (fun did => decide (did ∉ st.used))).mapM
      (lookupDelivery deliveries) with
  | none => rw [hm] at h; simp at h
  | some cds =>
      rw [hm] at h
      simp only [Option.some_bind] at h
      have hcds : ∀ d ∈ cds, d ∈ deliveries ∧ d.id ∉ st.used := by
        intro d hd
        obtain ⟨did, hdidmem, hlk⟩ := mapM_lookup_spec deliveries _ cds hm d hd
        obtain ⟨hid, hmemd⟩ := lookupDelivery_spec deliveries did d hlk
        have hfil := (List.mem_filter.mp hdidmem).2
        rw [decide_eq_true_eq] at hfil
        exact ⟨hmemd, by rw [hid]; exact hfil⟩
      cases cds with
      | nil =>
          simp only [Option.pure_def, Option.some.injEq] at h
          subst h; exact hinv
      | cons d0 rest =>
          dsimp only at h
          cases hc : buildCandidates ops G zmrc verShapes verb vehicles
              (d0 :: rest) d0 wh with
          | nil =>
              rw [hc] at h
              simp only [Option.pure_def, Option.some.injEq] at h
              subst h; exact hinv
          | cons c0 crest =>
              rw [hc] at h
              dsimp only at h
              cases hs : sortByKey (c0 :: crest) with
              | nil =>
                  rw [hs] at h
                  simp only [Option.pure_def, Option.some.injEq] at h
                  subst h; exact hinv
              | cons b0 bs =>
                  rw [hs] at h
                  dsimp only at h
                  by_cases hemp : (validateDeliveries ops
                      (gvehicleFor G zmrc verShapes verb vehicles b0.2)
                      (d0 :: rest) st.used).1.isEmpty = true
                  · rw [if_pos hemp] at h
                    simp only [Option.pure_def, Option.some.injEq] at h
                    subst h; exact hinv
                  · rw [if_neg hemp] at h
                    cases hwh : ops.nearestNode
                        (gvehicleFor G zmrc verShapes verb vehicles b0.2) wh with
                    | none => rw [hwh] at h; simp at h
                    | some whn =>
                        rw [hwh] at h
                        simp only [Option.some_bind] at h
                        by_cases hdl : (buildFullPathStrict ops
                            (gvehicleFor G zmrc verShapes verb vehicles b0.2)
                            (twoOptFixed ops
                              (gvehicleFor G zmrc verShapes verb vehicles b0.2)
                              (whn :: ((validateDeliveries ops
                                (gvehicleFor G zmrc verShapes verb vehicles b0.2)
                                (d0 :: rest) st.used).1.map (fun p => p.1)
                                  ++ [whn])))).dedup.length < 2
                        · rw [if_pos hdl] at h
                          simp only [Option.pure_def, Option.some.injEq] at h
                          subst h
                          exact rollback_state_inv ops _ deliveries st (d0 :: rest)
                            hinv hcds
                        · rw [if_neg hdl] at h
                          cases hdist : pathTotalDistance ops
                              (gvehicleFor G zmrc verShapes verb vehicles b0.2)
                              (buildFullPathStrict ops
                                (gvehicleFor G zmrc verShapes verb vehicles b0.2)
                                (twoOptFixed ops
                                  (gvehicleFor G zmrc verShapes verb vehicles b0.2)
                                  (whn :: ((validateDeliveries ops
                                    (gvehicleFor G zmrc verShapes verb vehicles b0.2)
                                    (d0 :: rest) st.used).1.map (fun p => p.1)
                                      ++ [whn])))) with
                          | none =>
                              rw [hdist] at h
                              simp only [Option.pure_def, Option.some.injEq] at h
                              subst h
                              exact rollback_state_inv ops _ deliveries st
                                (d0 :: rest) hinv hcds
                          | some dist =>
                              rw [hdist] at h
                              simp only [Option.pure_def, Option.some.injEq] at h
                              subst h
                              exact success_state_inv ops _ deliveries st
                                (d0 :: rest) _ _ dist cid hinv hcds

theorem primaryPass_inv (ops : GraphOps) (G : RoadGraph) (zmrc : Zone)
    (verShapes : List Zone) (verb : Bool) (vehicles : List Vehicle)
    (deliveries : List Delivery) (wh : Coord) :
    ∀ (clusterMapping : List (String × List Nat)) (st st' : PState),
      PrimInv deliveries st →
      primaryPass ops G zmrc verShapes verb vehicles deliveries wh
        clusterMapping st = some st' →
      PrimInv deliveries st' := by
  intro clusterMapping
  induction clusterMapping with
  | nil =>
      intro st st' hinv h
      simp only [primaryPass, Option.some.injEq] at h
      subst h; exact hinv
  | cons p rest ih =>
      intro st st' hinv h
      obtain ⟨cid, dids⟩ := p
      simp only [primaryPass, Option.bind_eq_bind] at h
      cases hpc : processCluster ops G zmrc verShapes verb vehicles deliveries
          wh st cid dids with
      | none => rw [hpc] at h; simp at h
      | some st1 =>
          rw [hpc] at h
          simp only [Option.some_bind] at h
          exact ih st1 st'
            (processCluster_inv ops G zmrc verShapes verb vehicles deliveries
              wh st st1 cid dids hinv hpc) h

theorem initPState_inv (deliveries : List Delivery) :
    PrimInv deliveries initPState := by
  refine ⟨List.nodup_nil, ?_, ?_, List.Pairwise.nil⟩
  · intro x; simp [initPState, allAssignedIds]
  · intro x hx; simp [initPState] at hx

theorem assignmentIds_attach (a : Assignment) (d : Delivery) :
    assignmentIds { a with deliveries := a.deliveries ++ [(d, "Reassigned")] }
      = assignmentIds a ++ [d.id] := by
  simp [assignmentIds]

theorem tryAttach_structure (ops : GraphOps) (G : RoadGraph) (zmrc : Zone)
    (verShapes : List Zone) (verb : Bool) (vehicles : List Vehicle) (d : Delivery) :
    ∀ (asg asg' : List Assignment),
      tryAttach ops G zmrc verShapes verb vehicles d asg = some asg' →
      ∃ pre a post, asg = pre ++ a :: post ∧
        asg' = pre ++
          ({ a with deliveries := a.deliveries ++ [(d, "Reassigned")] } :: post) := by
  intro asg
  induction asg with
  | nil => intro asg' h; cases h
  | cons a rest ih =>
      intro asg' h
      by_cases hc : (canVehicleReachDelivery ops
          (gvehicleFor G zmrc verShapes verb vehicles a.vehicle) d
          && checkCapacity a d) = true
      · simp only [tryAttach, if_pos hc, Option.some.injEq] at h
        exact ⟨[], a, rest, rfl, h.symm⟩
      · simp only [tryAttach, if_neg hc, Option.map_eq_some'] at h
        obtain ⟨r, hr, rfl⟩ := h
        obtain ⟨pre, b, post, hr1, hr2⟩ := ih r hr
        exact ⟨a :: pre, b, post, by rw [hr1]; rfl, by rw [hr2]; rfl⟩

theorem mem_allAssignedIds_middle (pre post : List Assignment) (b : Assignment) :
    ∀ x, x ∈ allAssignedIds (pre ++ b :: post) ↔
      x ∈ allAssignedIds pre ∨ x ∈ assignmentIds b ∨ x ∈ allAssignedIds post := by
  intro x
  simp [allAssignedIds]

theorem attach_allIds (pre post : List Assignment) (a : Assignment) (d : Delivery) :
    ∀ x, x ∈ allAssignedIds (pre ++
        ({ a with deliveries := a.deliveries ++ [(d, "Reassigned")] } :: post)) ↔
      x ∈ allAssignedIds (pre ++ a :: post) ∨ x = d.id := by
  intro x
  rw [mem_allAssignedIds_middle, mem_allAssignedIds_middle, assignmentIds_attach]
  simp only [List.mem_append, List.mem_singleton]
  tauto

theorem disjoint_attach (pre post : List Assignment) (a : Assignment) (d : Delivery)
    (hd : AssignmentsDisjoint (pre ++ a :: post))
    (hfresh : d.id ∉ allAssignedIds (pre ++ a :: post)) :
    AssignmentsDisjoint (pre ++
      ({ a with deliveries := a.deliveries ++ [(d, "Reassigned")] } :: post)) := by
  unfold AssignmentsDisjoint at hd ⊢
  rw [List.pairwise_append] at hd ⊢
  obtain ⟨hpre, hmid, hcross⟩ := hd
  rw [List.pairwise_cons] at hmid ⊢
  obtain ⟨hapost, hpost⟩ := hmid
  have hfreshpre : ∀ x ∈ pre, d.id ∉ assignmentIds x := by
    intro x hx hmem
    exact hfresh ((mem_allAssignedIds_middle pre post a d.id).mpr
      (Or.inl (by simp only [allAssignedIds, List.mem_flatMap]; exact ⟨x, hx, hmem⟩)))
  have hfreshpost : ∀ y ∈ post, d.id ∉ assignmentIds y := by
    intro y hy hmem
    exact hfresh ((mem_allAssignedIds_middle pre post a d.id).mpr
      (Or.inr (Or.inr
        (by simp only [allAssignedIds, List.mem_flatMap]; exact ⟨y, hy, hmem⟩))))
  refine ⟨hpre, ⟨?_, hpost⟩, ?_⟩
  · intro y hy x hx
    rw [assignmentIds_attach] at hx
    rcases List.mem_append.mp hx with hxa | hxd
    · exact hapost y hy x hxa
    · rw [List.mem_singleton] at hxd
      subst hxd
      exact hfreshpost y hy
  · intro x hx y hy i hi
    rcases List.mem_cons.mp hy with rfl | hyr
    · rw [assignmentIds_attach, List.mem_append, List.mem_singleton]
      rintro (hia | rfl)
      · exact hcross x hx a (List.mem_cons_self _ _) i hi hia
      · exact hfreshpre x hx hi
    · exact hcross x hx y (List.mem_cons_of_mem _ hyr) i hi

theorem distinct_attach (pre post : List Assignment) (a : Assignment) (d : Delivery)
    (hfresh : d.id ∉ allAssignedIds (pre ++ a :: post)) :
    distinctAssignedCount (pre ++
        ({ a with deliveries := a.deliveries ++ [(d, "Reassigned")] } :: post))
      = distinctAssignedCount (pre ++ a :: post) + 1 := by
  unfold distinctAssignedCount
  have hset : (allAssignedIds (pre ++
      ({ a with deliveries := a.deliveries ++ [(d, "Reassigned")] } :: post))).toFinset
      = insert d.id (allAssignedIds (pre ++ a :: post)).toFinset := by
    ext x
    simp only [List.mem_toFinset, Finset.mem_insert]
    rw [attach_allIds]
    tauto
  rw [hset, Finset.card_insert_of_not_mem (by simpa using hfresh)]

theorem leftoverPass_spec (ops : GraphOps) (G : RoadGraph) (zmrc : Zone)
    (verShapes : List Zone) (verb : Bool) (vehicles : List Vehicle) :
    ∀ (ds : List Delivery) (asg : List Assignment),
      (ds.map (fun d => d.id)).Nodup →
      (∀ d ∈ ds, d.id ∉ allAssignedIds asg) →
      AssignmentsDisjoint asg →
      AssignmentsDisjoint
          (leftoverPass ops G zmrc verShapes verb vehicles asg ds).1
      ∧ distinctAssignedCount
            (leftoverPass ops G zmrc verShapes verb vehicles asg ds).1
          + (leftoverPass ops G zmrc verShapes verb vehicles asg ds).2.length
        = distinctAssignedCount asg + ds.length
      ∧ (∀ d ∈ ds,
          d.id ∈ allAssignedIds
              (leftoverPass ops G zmrc verShapes verb vehicles asg ds).1
          ∨ d.id ∈ (leftoverPass ops G zmrc verShapes verb vehicles asg ds).2)
      ∧ (∀ x ∈ allAssignedIds asg,
          x ∈ allAssignedIds
            (leftoverPass ops G zmrc verShapes verb vehicles asg ds).1) := by
  intro ds
  induction ds with
  | nil =>
      intro asg hnd hfresh hdisj
      refine ⟨by simpa [leftoverPass] using hdisj, by simp [leftoverPass], ?_, ?_⟩
      · intro d hd; cases hd
      · intro x hx; simpa [leftoverPass] using hx
  | cons d rest ih =>
      intro asg hnd hfresh hdisj
      have hndrest : (rest.map (fun d => d.id)).Nodup := by
        simp only [List.map_cons, List.nodup_cons] at hnd
        exact hnd.2
      have hdnotrest : d.id ∉ rest.map (fun d => d.id) := by
        simp only [List.map_cons, List.nodup_cons] at hnd
        exact hnd.1
      have hdfresh : d.id ∉ allAssignedIds asg := hfresh d (List.mem_cons_self _ _)
      cases hatt : tryAttach ops G zmrc verShapes verb vehicles d asg with
      | some asg' =>
          obtain ⟨pre, a, post, hs1, hs2⟩ :=
            tryAttach_structure ops G zmrc verShapes verb vehicles d asg asg' hatt
          subst hs1
          have hfresh' : ∀ d' ∈ rest, d'.id ∉ allAssignedIds asg' := by
            intro d' hd' hmem
            rw [hs2, attach_allIds] at hmem
            rcases hmem with hmem | heq
            · exact hfresh d' (List.mem_cons_of_mem _ hd') hmem
            · exact hdnotrest (heq ▸ List.mem_map.mpr ⟨d', hd', rfl⟩)
          have hdisj' : AssignmentsDisjoint asg' := by
            rw [hs2]
            exact disjoint_attach pre post a d hdisj hdfresh
          obtain ⟨ih1, ih2, ih3, ih4⟩ := ih asg' hndrest hfresh' hdisj'
          have hrun : leftoverPass ops G zmrc verShapes verb vehicles
              (pre ++ a :: post) (d :: rest)
              = leftoverPass ops G zmrc verShapes verb vehicles asg' rest := by
            simp only [leftoverPass, hatt]
          rw [hrun]
          have hdist' : distinctAssignedCount asg'
              = distinctAssignedCount (pre ++ a :: post) + 1 := by
            rw [hs2]
            exact distinct_attach pre post a d hdfresh
          refine ⟨ih1, ?_, ?_, ?_⟩
          · rw [ih2, hdist']
            simp only [List.length_cons]
            omega
          · intro d' hd'
            rcases List.mem_cons.mp hd' with rfl | hdr
            · left
              apply ih4
              rw [hs2, attach_allIds]
              exact Or.inr rfl
            · exact ih3 d' hdr
          · intro x hx
            apply ih4
            rw [hs2, attach_allIds]
            exact Or.inl hx
      | none =>
          have hfresh' : ∀ d' ∈ rest, d'.id ∉ allAssignedIds asg :=
            fun d' hd' => hfresh d' (List.mem_cons_of_mem _ hd')
          obtain ⟨ih1, ih2, ih3, ih4⟩ := ih asg hndrest hfresh' hdisj
          have hrun : leftoverPass ops G zmrc verShapes verb vehicles asg (d :: rest)
              = ((leftoverPass ops G zmrc verShapes verb vehicles asg rest).1,
                 d.id :: (leftoverPass ops G zmrc verShapes verb vehicles asg rest).2) := by
            simp only [leftoverPass, hatt]
          rw [hrun]
          refine ⟨ih1, ?_, ?_, ih4⟩
          · simp only [List.length_cons]
            omega
          · intro d' hd'
            rcases List.mem_cons.mp hd' with rfl | hdr
            · exact Or.inr (List.mem_cons_self _ _)
            · rcases ih3 d' hdr with hl | hr
              · exact Or.inl hl
              · exact Or.inr (List.mem_cons_of_mem _ hr)

theorem assignClustersHeuristic_spec (ops : GraphOps) (G : RoadGraph)
    (zmrc : Zone) (verShapes : List Zone) (verb : Bool)
    (vehicles : List Vehicle) (deliveries : List Delivery)
    (clusterMapping : List (String × List Nat)) (wh : Coord)
    (hdel : (deliveries.map (fun d => d.id)).Nodup) (res : HeurResult)
    (hres : assignClustersHeuristic ops G zmrc verShapes verb vehicles
      deliveries clusterMapping wh = some res) :
    AssignmentsDisjoint res.assignments
    ∧ distinctAssignedCount res.assignments + res.warnings.length
        = deliveries.length
    ∧ ∀ d ∈ deliveries,
        d.id ∈ allAssignedIds res.assignments ∨ d.id ∈ res.warnings := by
  cases hprim : primaryPass ops G zmrc verShapes verb vehicles deliveries wh
      clusterMapping initPState with
  | none =>
      simp only [assignClustersHeuristic, Option.bind_eq_bind] at hres
      rw [hprim] at hres
      simp at hres
  | some st =>
      simp only [assignClustersHeuristic, Option.bind_eq_bind] at hres
      rw [hprim] at hres
      simp only [Option.some_bind, Option.pure_def, Option.some.injEq] at hres
      subst hres
      have hinv := primaryPass_inv ops G zmrc verShapes verb vehicles deliveries
        wh clusterMapping initPState st (initPState_inv deliveries) hprim
      have hndU : ((deliveries.filter
          (fun d => decide (d.id ∉ st.used))).map (fun d => d.id)).Nodup :=
        ((List.filter_sublist _).map _).nodup hdel
      have hfreshU : ∀ d ∈ deliveries.filter (fun d => decide (d.id ∉ st.used)),
          d.id ∉ allAssignedIds st.assignments := by
        intro d hd hmem
        have hnu := (List.mem_filter.mp hd).2
        rw [decide_eq_true_eq] at hnu
        exact hnu ((hinv.mem_iff d.id).mpr hmem)
      obtain ⟨L1, L2, L3, L4⟩ := leftoverPass_spec ops G zmrc verShapes verb
        vehicles (deliveries.filter (fun d => decide (d.id ∉ st.used)))
        st.assignments hndU hfreshU hinv.disj
      refine ⟨L1, ?_, ?_⟩
      · have hused_card : distinctAssignedCount st.assignments
            = st.used.length := by
          unfold distinctAssignedCount
          have hset : (allAssignedIds st.assignments).toFinset
              = st.used.toFinset := by
            ext x
            simp only [List.mem_toFinset]
            exact (hinv.mem_iff x).symm
          rw [hset, List.toFinset_card_of_nodup hinv.nodup]
        have hcntA : (deliveries.filter
            (fun d => decide (d.id ∈ st.used))).length = st.used.length := by
          have h1 : (deliveries.filter
              (fun d => decide (d.id ∈ st.used))).length
              = ((deliveries.map (fun d => d.id)).filter
                  (fun x => decide (x ∈ st.used))).length := by
            rw [← List.countP_eq_length_filter, ← List.countP_eq_length_filter,
              List.countP_map]
            rfl
          rw [h1]
          apply List.Perm.length_eq
          apply (List.perm_ext_iff_of_nodup (hdel.filter _) hinv.nodup).mpr
          intro a
          simp only [List.mem_filter, decide_eq_true_eq]
          exact ⟨fun hx => hx.2, fun hx => ⟨hinv.sub a hx, hx⟩⟩
        have hsplit : deliveries.length
            = (deliveries.filter (fun d => decide (d.id ∈ st.used))).length
              + (deliveries.filter (fun d => decide (d.id ∉ st.used))).length := by
          have := List.length_eq_length_filter_add
            (l := deliveries) (f := fun d => decide (d.id ∈ st.used))
          rw [this]
          congr 1
          apply congrArg
          apply List.filter_congr
          intro d _
          simp [decide_not]
        rw [L2, hused_card]
        omega
      · intro d hd
        by_cases hu : d.id ∈ st.used
        · exact Or.inl (L4 d.id ((hinv.mem_iff d.id).mp hu))
        · have hdU : d ∈ deliveries.filter
              (fun d => decide (d.id ∉ st.used)) :=
            List.mem_filter.mpr ⟨hd, by simpa using hu⟩
          exact L3 d hdU

/-- C2: for every run of the heuristic assignment engine on deliveries with
pairwise-distinct ids, the number of distinct demand ids appearing in the
final assignment map plus the number of ids reported as permanently
unassigned (the "could not be reassigned" warnings of the leftover pass)
equals the number of input demands; moreover every input demand either
appears in some final assignment or is surfaced in the unassigned report. -/
theorem coverage_accounting (ops : GraphOps) (G : RoadGraph)
    (zmrc : Zone) (verShapes : List Zone) (verb : Bool)
    (vehicles : List Vehicle) (deliveries : List Delivery)
    (clusterMapping : List (String × List Nat)) (wh : Coord)
    (hdel : (deliveries.map (fun d => d.id)).Nodup) (res : HeurResult)
    (hres : assignClustersHeuristic ops G zmrc verShapes verb vehicles
      deliveries clusterMapping wh = some res) :
    distinctAssignedCount res.assignments + res.warnings.length
        = deliveries.length
    ∧ ∀ d ∈ deliveries,
        d.id ∈ allAssignedIds res.assignments ∨ d.id ∈ res.warnings :=
  (assignClustersHeuristic_spec ops G zmrc verShapes verb vehicles deliveries
    clusterMapping wh hdel res hres).2

/-- Witness for C2 on the one-delivery world: one assigned demand, no
warnings, one input demand. -/
theorem coverage_accounting_witness :
    distinctAssignedCount exResHeavy.assignments
        + exResHeavy.warnings.length = 1
    ∧ ∀ d ∈ [dHeavy],
        d.id ∈ allAssignedIds exResHeavy.assignments
        ∨ d.id ∈ exResHeavy.warnings :=
  coverage_accounting (completeOps 5) exG2 zoneEmpty [] false [vSmall]
    [dHeavy] [("Cluster 1", [1])] (0, 0) (by decide) exResHeavy (by decide)

/-- C3: no demand id appears in the assigned delivery list of more than one
route of the final assignment map: the primary pass guards clusters with
`used_deliveries` (restoring it when route construction fails) and the
leftover pass attaches a delivery to at most the first feasible assignment. -/
theorem assignment_disjointness (ops : GraphOps) (G : RoadGraph)
    (zmrc : Zone) (verShapes : List Zone) (verb : Bool)
    (vehicles : List Vehicle) (deliveries : List Delivery)
    (clusterMapping : List (String × List Nat)) (wh : Coord)
    (hdel : (deliveries.map (fun d => d.id)).Nodup) (res : HeurResult)
    (hres : assignClustersHeuristic ops G zmrc verShapes verb vehicles
      deliveries clusterMapping wh = some res) :
    AssignmentsDisjoint res.assignments :=
  (assignClustersHeuristic_spec ops G zmrc verShapes verb vehicles deliveries
    clusterMapping wh hdel res hres).1

/-- Witness for C3 on the one-delivery world. -/
theorem assignment_disjointness_witness :
    AssignmentsDisjoint exResHeavy.assignments :=
  assignment_disjointness (completeOps 5) exG2 zoneEmpty [] false [vSmall]
    [dHeavy] [("Cluster 1", [1])] (0, 0) (by decide) exResHeavy (by decide)

/-- C6 counterexample: delivery `dB` resolves to node 3, which has no path
from the depot node 1, yet `compute_shortest_path_with_restrictions` raises
no error: node 3 never enters the `tsp_graph` (only endpoints of added edges
do), the completeness check `len(edges) < n(n-1)/2` is computed over the
nodes the graph acquired (here `{1, 2}`), so it passes and the unreachable
demand is silently dropped from the tour. -/
theorem routing_error_counterexample :
    computeShortestPathWithRestrictions (arcOps [(1, 2), (2, 1)] 5) exSolver
        exG3 (0, 0) [dA, dB] vSmall zoneEmpty [] false
      = Except.ok ([1, 2, 1], 10)
    ∧ (arcOps [(1, 2), (2, 1)] 5).nearestNode
        (filterGraphForVehicle exG3 vSmall zoneEmpty [] false) dB.coords
      = some 3
    ∧ (arcOps [(1, 2), (2, 1)] 5).spLength
        (filterGraphForVehicle exG3 vSmall zoneEmpty [] false) 1 3 = none :=
  ⟨rfl, rfl, rfl⟩

/-- C6 amended: the route builder raises its `ValueError` exactly when the
pairwise-distance graph is incomplete over the nodes that acquired at least
one edge (second conjunct); a demand node with no finite distance to any
other required node is silently dropped instead of raising (see the
counterexample).  When the `ValueError` is raised, the engine's candidate
loop catches it and proceeds with the remaining vehicles, never aborting the
run (first conjunct). -/
theorem routing_error_amended :
    (∀ (ops : GraphOps) (tspSolver : List ((Node × Node) × Nat) → List Node)
        (geomDist : Coord → Coord → Nat) (G : RoadGraph) (zmrc : Zone)
        (verShapes : List Zone) (verb : Bool) (wh : Coord)
        (cds : List Delivery) (v : Vehicle) (vs : List Vehicle) (m : String),
      canVehicleReachAllDeliveries ops G v zmrc verShapes verb cds = true →
      computeShortestPathWithRestrictions ops tspSolver G wh cds v zmrc
          verShapes verb = Except.error (CompErr.valueErr m) →
      tryVehiclesForCluster ops tspSolver geomDist G zmrc verShapes verb wh
          cds (v :: vs)
        = tryVehiclesForCluster ops tspSolver geomDist G zmrc verShapes verb wh
            cds vs)
    ∧ (∀ (ops : GraphOps) (tspSolver : List ((Node × Node) × Nat) → List Node)
        (G : RoadGraph) (wh : Coord) (cds : List Delivery) (v : Vehicle)
        (zmrc : Zone) (verShapes : List Zone) (verb : Bool) (w : Node),
      ops.nearestNode (filterGraphForVehicle G v zmrc verShapes verb) wh
          = some w →
      (buildTspEdges ops (filterGraphForVehicle G v zmrc verShapes verb)
          (w :: cds.filterMap (fun d => ops.nearestNode
            (filterGraphForVehicle G v zmrc verShapes verb) d.coords))).length
        < (tspNodesOf (buildTspEdges ops
            (filterGraphForVehicle G v zmrc verShapes verb)
            (w :: cds.filterMap (fun d => ops.nearestNode
              (filterGraphForVehicle G v zmrc verShapes verb) d.coords)))).length
          * ((tspNodesOf (buildTspEdges ops
              (filterGraphForVehicle G v zmrc verShapes verb)
              (w :: cds.filterMap (fun d => ops.nearestNode
                (filterGraphForVehicle G v zmrc verShapes verb) d.coords)))).length
            - 1) / 2 →
      computeShortestPathWithRestrictions ops tspSolver G wh cds v zmrc
          verShapes verb
        = Except.error
            (CompErr.valueErr
              "Cannot create TSP path: disconnected or incomplete graph")) := by
  constructor
  · intro ops tspSolver geomDist G zmrc verShapes verb wh cds v vs m hreach hcomp
    simp only [tryVehiclesForCluster, hreach, Bool.not_true, Bool.false_eq_true,
      if_false, hcomp]
  · intro ops tspSolver G wh cds v zmrc verShapes verb w hwh hlt
    simp only [computeShortestPathWithRestrictions, hwh]
    show (Except.ok w >>= fun whNode => _) = _
    rw [show ∀ (f : Node → Except CompErr (List Node × Nat)),
        (Except.ok w >>= f) = f w from fun f => rfl]
    rw [if_pos hlt]

/-- Witness for the amended C6: on the three-node world with arcs only from
the depot, the virtual graph has edges `(1,2)` and `(1,3)` but not `(2,3)`,
so the `ValueError` is raised and the candidate loop moves past the vehicle. -/
theorem routing_error_amended_witness :
    tryVehiclesForCluster (arcOps [(1, 2), (2, 1), (1, 3), (3, 1)] 5) exSolver
        constDist100 exG3 zoneEmpty [] false (0, 0) [dA, dB] [vSmall]
      = tryVehiclesForCluster (arcOps [(1, 2), (2, 1), (1, 3), (3, 1)] 5)
          exSolver constDist100 exG3 zoneEmpty [] false (0, 0) [dA, dB] []
    ∧ computeShortestPathWithRestrictions
        (arcOps [(1, 2), (2, 1), (1, 3), (3, 1)] 5) exSolver exG3 (0, 0)
        [dA, dB] vSmall zoneEmpty [] false
      = Except.error
          (CompErr.valueErr
            "Cannot create TSP path: disconnected or incomplete graph") :=
  ⟨routing_error_amended.1 (arcOps [(1, 2), (2, 1), (1, 3), (3, 1)] 5) exSolver
      constDist100 exG3 zoneEmpty [] false (0, 0) [dA, dB] vSmall []
      "Cannot create TSP path: disconnected or incomplete graph" (by decide)
      (by rfl),
   routing_error_amended.2 (arcOps [(1, 2), (2, 1), (1, 3), (3, 1)] 5) exSolver
      exG3 (0, 0) [dA, dB] vSmall zoneEmpty [] false 1 (by rfl) (by decide)⟩

theorem length_filter_lt {α : Type} (p : α → Bool) :
    ∀ (l : List α) (x : α), x ∈ l → p x = false →
      (l.filter p).length < l.length := by
  intro l
  induction l with
  | nil => intro x hx; cases hx
  | cons a t ih =>
      intro x hx hpx
      rcases List.mem_cons.mp hx with rfl | hxt
      · rw [List.filter_cons, hpx]
        simp only [List.length_cons]
        exact Nat.lt_succ_of_le (List.length_filter_le _ _)
      · rw [List.filter_cons]
        cases hpa : p a with
        | true =>
            simp only [List.length_cons]
            exact Nat.succ_lt_succ (ih x hxt hpx)
        | false =>
            simp only [List.length_cons]
            exact Nat.lt_succ_of_lt (ih x hxt hpx)

theorem applyMerge_keys {γ : Type} (gops : GeomOps γ) (cid : String)
    (cdata : ClusterData γ) (tid : String) :
    ∀ (cs : List (String × ClusterData γ)),
      (applyMerge gops cs cid cdata tid).map (fun c => c.1)
        = (cs.map (fun c => c.1)).filter (fun k => decide (k ≠ cid)) := by
  intro cs
  induction cs with
  | nil => rfl
  | cons c t ih =>
      have hkey : (if (c.1 == tid) = true
          then (c.1, mergedClusterData gops c.2 cdata) else c).1 = c.1 := by
        by_cases h : (c.1 == tid) = true <;> simp [h]
      simp only [applyMerge, List.map_cons, List.filter_cons, hkey] at ih ⊢
      cases hk : decide (c.1 ≠ cid) with
      | true =>
          simp only [if_true, List.map_cons, hkey]
          exact congrArg (fun l => c.1 :: l) ih
      | false =>
          simp only [Bool.false_eq_true, if_false]
          exact ih

theorem applyMerge_length {γ : Type} (gops : GeomOps γ) (cid : String)
    (cdata : ClusterData γ) (tid : String)
    (cs : List (String × ClusterData γ)) (c : String × ClusterData γ)
    (hc : c ∈ cs) (hk : c.1 = cid) :
    (applyMerge gops cs cid cdata tid).length < cs.length := by
  have h1 : (applyMerge gops cs cid cdata tid).length
      = ((applyMerge gops cs cid cdata tid).map (fun c => c.1)).length := by
    rw [List.length_map]
  rw [h1, applyMerge_keys]
  have h2 : cs.length = (cs.map (fun c => c.1)).length := by
    rw [List.length_map]
  rw [h2]
  exact length_filter_lt _ _ c.1 (List.mem_map.mpr ⟨c, hc, rfl⟩)
    (by simp [hk])

theorem forceMergeInner_some {γ : Type} (gops : GeomOps γ)
    (cs : List (String × ClusterData γ)) :
    ∀ (smalls : List (String × ClusterData γ))
      (cs' : List (String × ClusterData γ)),
      forceMergeInner gops cs smalls = some cs' →
      ∃ q ∈ smalls, ∃ tid, cs' = applyMerge gops cs q.1 q.2 tid := by
  intro smalls
  induction smalls with
  | nil => intro cs' h; cases h
  | cons q rs ih =>
      intro cs' h
      obtain ⟨cid, cdata⟩ := q
      cases hf : cs.filter (fun c => decide (c.1 ≠ cid)) with
      | nil =>
          simp only [forceMergeInner, hf] at h
          obtain ⟨q', hq', tid, htid⟩ := ih cs' h
          exact ⟨q', List.mem_cons_of_mem _ hq', tid, htid⟩
      | cons c0 crest =>
          simp only [forceMergeInner, hf, Option.some.injEq] at h
          exact ⟨(cid, cdata), List.mem_cons_self _ _,
            (minByKey (fun c => gops.centroidDist cdata.geometry c.2.geometry)
              c0 crest).1, h.symm⟩

theorem forceMergeInner_none {γ : Type} (gops : GeomOps γ)
    (cs : List (String × ClusterData γ)) :
    ∀ (smalls : List (String × ClusterData γ)),
      forceMergeInner gops cs smalls = none →
      ∀ q ∈ smalls, cs.filter (fun c => decide (c.1 ≠ q.1)) = [] := by
  intro smalls
  induction smalls with
  | nil => intro h q hq; cases hq
  | cons q0 rs ih =>
      intro h q hq
      obtain ⟨cid, cdata⟩ := q0
      cases hf : cs.filter (fun c => decide (c.1 ≠ cid)) with
      | nil =>
          simp only [forceMergeInner, hf] at h
          rcases List.mem_cons.mp hq with rfl | hqr
          · exact hf
          · exact ih h q hqr
      | cons c0 crest =>
          simp only [forceMergeInner, hf] at h
          cases h

theorem forceMergeLoop_post {γ : Type} (gops : GeomOps γ) (minPts : Nat) :
    ∀ (fuel : Nat) (cs : List (String × ClusterData γ)),
      cs.length ≤ fuel → (cs.map (fun c => c.1)).Nodup →
      (∀ c ∈ forceMergeLoop gops minPts fuel cs,
        minPts ≤ c.2.members.length)
      ∨ (forceMergeLoop gops minPts fuel cs).length = 1 := by
  intro fuel
  induction fuel with
  | zero =>
      intro cs hlen hnd
      have : cs = [] := List.length_eq_zero.mp (by omega)
      subst this
      left
      intro c hc
      simp [forceMergeLoop] at hc
  | succ f ih =>
      intro cs hlen hnd
      cases hsm : cs.filter (fun c => decide (c.2.members.length < minPts)) with
      | nil =>
          left
          intro c hc
          have hres : forceMergeLoop gops minPts (f + 1) cs = cs := by
            simp only [forceMergeLoop, hsm]
          rw [hres] at hc
          have hfalse : ¬ decide (c.2.members.length < minPts) = true := by
            intro habs
            have : c ∈ cs.filter (fun c => decide (c.2.members.length < minPts)) :=
              List.mem_filter.mpr ⟨hc, habs⟩
            rw [hsm] at this
            cases this
          rw [decide_eq_true_eq] at hfalse
          omega
      | cons s ss =>
          have hres : forceMergeLoop gops minPts (f + 1) cs
              = match forceMergeInner gops cs (s :: ss) with
                | none => cs
                | some cs' => forceMergeLoop gops minPts f cs' := by
            simp only [forceMergeLoop, hsm]
          cases hin : forceMergeInner gops cs (s :: ss) with
          | none =>
              rw [hres, hin]
              right
              have hflt := forceMergeInner_none gops cs (s :: ss) hin s
                (List.mem_cons_self _ _)
              have hsmem : s ∈ cs := by
                have hmem : s ∈ cs.filter
                    (fun c => decide (c.2.members.length < minPts)) := by
                  rw [hsm]; exact List.mem_cons_self _ _
                exact (List.mem_filter.mp hmem).1
              have hall : ∀ c ∈ cs, c.1 = s.1 := by
                intro c hc
                by_contra hne
                have hmem : c ∈ cs.filter (fun c => decide (c.1 ≠ s.1)) :=
                  List.mem_filter.mpr ⟨hc, by simpa using hne⟩
                rw [hflt] at hmem
                cases hmem
              cases cs with
              | nil => cases hsmem
              | cons c1 t =>
                  cases t with
                  | nil => rfl
                  | cons c2 t2 =>
                      exfalso
                      have h1 : c1.1 = s.1 := hall c1 (List.mem_cons_self _ _)
                      have h2 : c2.1 = s.1 := hall c2
                        (List.mem_cons_of_mem _ (List.mem_cons_self _ _))
                      simp only [List.map_cons, List.nodup_cons] at hnd
                      exact hnd.1
                        (by
                          rw [h1, ← h2]
                          exact List.mem_cons_self _ _)
          | some cs' =>
              rw [hres, hin]
              obtain ⟨q, hq, tid, rfl⟩ :=
                forceMergeInner_some gops cs (s :: ss) cs' hin
              have hqcs : q ∈ cs := by
                have hmem : q ∈ cs.filter
                    (fun c => decide (c.2.members.length < minPts)) := by
                  rw [hsm]; exact hq
                exact (List.mem_filter.mp hmem).1
              have hlt := applyMerge_length gops q.1 q.2 tid cs q hqcs rfl
              have hnd' : ((applyMerge gops cs q.1 q.2 tid).map
                  (fun c => c.1)).Nodup := by
                rw [applyMerge_keys]
                exact hnd.filter _
              exact ih _ (by omega) hnd'

theorem forceMergeLoop_fuel_irrelevant {γ : Type} (gops : GeomOps γ)
    (minPts : Nat) :
    ∀ (f1 f2 : Nat) (cs : List (String × ClusterData γ)),
      cs.length ≤ f1 → cs.length ≤ f2 →
      forceMergeLoop gops minPts f1 cs = forceMergeLoop gops minPts f2 cs := by
  intro f1
  induction f1 with
  | zero =>
      intro f2 cs h1 h2
      have : cs = [] := List.length_eq_zero.mp (by omega)
      subst this
      cases f2 with
      | zero => rfl
      | succ f2' => simp [forceMergeLoop]
  | succ f ih =>
      intro f2 cs h1 h2
      cases f2 with
      | zero =>
          have : cs = [] := List.length_eq_zero.mp (by omega)
          subst this
          simp [forceMergeLoop]
      | succ f2' =>
          cases hsm : cs.filter (fun c => decide (c.2.members.length < minPts)) with
          | nil => simp only [forceMergeLoop, hsm]
          | cons s ss =>
              simp only [forceMergeLoop, hsm]
              cases hin : forceMergeInner gops cs (s :: ss) with
              | none => rfl
              | some cs' =>
                  obtain ⟨q, hq, tid, rfl⟩ :=
                    forceMergeInner_some gops cs (s :: ss) cs' hin
                  have hqcs : q ∈ cs := by
                    have hmem : q ∈ cs.filter
                        (fun c => decide (c.2.members.length < minPts)) := by
                      rw [hsm]; exact hq
                    exact (List.mem_filter.mp hmem).1
                  have hlt := applyMerge_length gops q.1 q.2 tid cs q hqcs rfl
                  exact ih f2' _ (by omega) (by omega)

/-- C8: the force-merge pass terminates — its `while changed` loop removes a
cluster on every iteration, so granting it any fuel beyond the cluster count
changes nothing (third conjunct); on a cluster map with distinct keys it
returns a map in which either every cluster meets `min_points_per_cluster`
or exactly one cluster remains (first conjunct); and each merge writes the
target's `requires_zmrc`/`requires_rodizio` flags as the logical OR of both
clusters' flags (second conjunct), with the source's members appended to the
nearest remaining cluster. -/
theorem force_merge_terminates_post_flags :
    (∀ (γ : Type) (gops : GeomOps γ) (minPts : Nat)
        (cs : List (String × ClusterData γ)),
      (cs.map (fun c => c.1)).Nodup →
      (∀ c ∈ forceMergeClusters gops minPts cs, minPts ≤ c.2.members.length)
      ∨ (forceMergeClusters gops minPts cs).length = 1)
    ∧ (∀ (γ : Type) (gops : GeomOps γ) (t s : ClusterData γ),
        (mergedClusterData gops t s).requires_zmrc
            = (t.requires_zmrc || s.requires_zmrc)
        ∧ (mergedClusterData gops t s).requires_rodizio
            = (t.requires_rodizio || s.requires_rodizio)
        ∧ (mergedClusterData gops t s).members = t.members ++ s.members)
    ∧ (∀ (γ : Type) (gops : GeomOps γ) (minPts : Nat)
        (cs : List (String × ClusterData γ)) (extra : Nat),
      forceMergeLoop gops minPts (cs.length + extra) cs
        = forceMergeClusters gops minPts cs) := by
  refine ⟨?_, ?_, ?_⟩
  · intro γ gops minPts cs hnd
    exact forceMergeLoop_post gops minPts cs.length cs le_rfl hnd
  · intro γ gops t s
    exact ⟨rfl, rfl, rfl⟩
  · intro γ gops minPts cs extra
    exact forceMergeLoop_fuel_irrelevant gops minPts _ _ cs (by omega) le_rfl

/-- Witness for C8: two undersized adjacent clusters merge into a single
cluster of 3 members; the flags are OR-combined; extra fuel is irrelevant. -/
theorem force_merge_terminates_post_flags_witness :
    ((∀ c ∈ forceMergeClusters unitGeomOps 3 csAB, 3 ≤ c.2.members.length)
      ∨ (forceMergeClusters unitGeomOps 3 csAB).length = 1)
    ∧ ((mergedClusterData unitGeomOps
          { geometry := (), members := [2, 3], requires_zmrc := false,
            requires_rodizio := true }
          { geometry := (), members := [1], requires_zmrc := true,
            requires_rodizio := false }).requires_zmrc = true)
    ∧ forceMergeLoop unitGeomOps 3 (csAB.length + 5) csAB
        = forceMergeClusters unitGeomOps 3 csAB := by
  refine ⟨force_merge_terminates_post_flags.1 Unit unitGeomOps 3 csAB (by decide),
    ?_, force_merge_terminates_post_flags.2.2 Unit unitGeomOps 3 csAB 5⟩
  have h := (force_merge_terminates_post_flags.2.1 Unit unitGeomOps
    { geometry := (), members := [2, 3], requires_zmrc := false,
      requires_rodizio := true }
    { geometry := (), members := [1], requires_zmrc := true,
      requires_rodizio := false }).1
  rw [h]
  rfl

theorem redistributeZonePoints_length {γ : Type} (gops : GeomOps γ)
    (zoneIsZmrc : Bool) :
    ∀ (pts : List (Nat × Coord)) (cm cm' : List (String × ClusterData γ)),
      redistributeZonePoints gops zoneIsZmrc pts cm = some cm' →
      cm'.length = cm.length := by
  intro pts
  induction pts with
  | nil =>
      intro cm cm' h
      simp only [redistributeZonePoints, Option.some.injEq] at h
      rw [← h]
  | cons p rest ih =>
      intro cm cm' h
      obtain ⟨idx, pc⟩ := p
      cases cm with
      | nil => cases h
      | cons c0 crest =>
          simp only [redistributeZonePoints] at h
          have := ih _ _ h
          rw [this, List.length_map]

theorem redistributeZonePoints_isSome {γ : Type} (gops : GeomOps γ)
    (zoneIsZmrc : Bool) :
    ∀ (pts : List (Nat × Coord)) (cm : List (String × ClusterData γ)),
      cm ≠ [] →
      (redistributeZonePoints gops zoneIsZmrc pts cm).isSome = true := by
  intro pts
  induction pts with
  | nil => intro cm hcm; simp [redistributeZonePoints]
  | cons p rest ih =>
      intro cm hcm
      obtain ⟨idx, pc⟩ := p
      cases cm with
      | nil => exact absurd rfl hcm
      | cons c0 crest =>
          simp only [redistributeZonePoints]
          exact ih _ (by simp)

theorem outsideClusters_ne_nil {γ : Type} (gops : GeomOps γ) (mergeThr : Nat)
    (p : Nat × Coord) (rest : List (Nat × Coord)) :
    outsideClusters gops mergeThr (p :: rest) ≠ [] := by
  simp only [outsideClusters, mergeGroups]
  intro h
  have := congrArg List.length h
  simp at this

/-- C10: when every demand lies inside a managed zone (no free cluster is
formed) and a zone bucket is non-empty but below `min_points_per_cluster`,
the zone-redistribution branch of `generate_delivery_clusters` evaluates
`min(...)` over an empty candidate collection and dies with an uncaught
`ValueError` (first conjunct, the crash modelled as `none`); having at least
one outside-zone cluster is a sufficient — and unstated — precondition for
the redistribution branches to succeed (second conjunct). -/
theorem zone_redistribution_empty_crash :
    (∀ (γ : Type) (gops : GeomOps γ) (zmrcShape rodizioShape : Zone)
        (zmrcGeom rodizioGeom : γ) (mergeThr : Nat)
        (deliveries : List Delivery),
      ptsOutside zmrcShape rodizioShape deliveries = [] →
      ptsZmrc zmrcShape deliveries ≠ [] →
      (ptsZmrc zmrcShape deliveries).length < minPointsPerCluster deliveries →
      generateDeliveryClustersCore gops zmrcShape rodizioShape zmrcGeom
        rodizioGeom mergeThr deliveries = none)
    ∧ (∀ (γ : Type) (gops : GeomOps γ) (zmrcShape rodizioShape : Zone)
        (zmrcGeom rodizioGeom : γ) (mergeThr : Nat)
        (deliveries : List Delivery),
      ptsOutside zmrcShape rodizioShape deliveries ≠ [] →
      (generateDeliveryClustersCore gops zmrcShape rodizioShape zmrcGeom
        rodizioGeom mergeThr deliveries).isSome = true) := by
  constructor
  · intro γ gops zmrcShape rodizioShape zmrcGeom rodizioGeom mergeThr
      deliveries hout hne hsize
    simp only [generateDeliveryClustersCore, hout, Option.bind_eq_bind]
    rw [if_neg (by omega)]
    cases hzm : ptsZmrc zmrcShape deliveries with
    | nil => exact absurd hzm hne
    | cons p rest =>
        obtain ⟨idx, pc⟩ := p
        simp [outsideClusters, mergeGroups, redistributeZonePoints]
  · intro γ gops zmrcShape rodizioShape zmrcGeom rodizioGeom mergeThr
      deliveries hout
    cases hO : ptsOutside zmrcShape rodizioShape deliveries with
    | nil => exact absurd hO hout
    | cons p rest =>
        have hcm0 : outsideClusters gops mergeThr
            (ptsOutside zmrcShape rodizioShape deliveries) ≠ [] := by
          rw [hO]
          exact outsideClusters_ne_nil gops mergeThr p rest
        simp only [generateDeliveryClustersCore, Option.bind_eq_bind]
        by_cases hz : minPointsPerCluster deliveries
            ≤ (ptsZmrc zmrcShape deliveries).length
        · rw [if_pos hz]
          simp only [Option.some_bind]
          by_cases hr : minPointsPerCluster deliveries
              ≤ (ptsRodizio zmrcShape rodizioShape deliveries).length
          · rw [if_pos hr]
            simp
          · rw [if_neg hr]
            obtain ⟨cm2, hrun2⟩ := Option.isSome_iff_exists.mp
              (redistributeZonePoints_isSome gops false
                (ptsRodizio zmrcShape rodizioShape deliveries) _ hcm0)
            rw [hrun2]
            simp
        · rw [if_neg hz]
          obtain ⟨cm1, hrun1⟩ := Option.isSome_iff_exists.mp
            (redistributeZonePoints_isSome gops true
              (ptsZmrc zmrcShape deliveries) _ hcm0)
          rw [hrun1]
          simp only [Option.map_some', Option.some_bind]
          have hlen1 := redistributeZonePoints_length gops true
            (ptsZmrc zmrcShape deliveries) _ cm1 hrun1
          have hcm1 : cm1 ≠ [] := by
            intro habs
            rw [habs] at hlen1
            simp only [List.length_nil] at hlen1
            exact hcm0 (List.length_eq_zero.mp hlen1.symm)
          by_cases hr : minPointsPerCluster deliveries
              ≤ (ptsRodizio zmrcShape rodizioShape deliveries).length
          · rw [if_pos hr]
            simp
          · rw [if_neg hr]
            obtain ⟨cm2, hrun2⟩ := Option.isSome_iff_exists.mp
              (redistributeZonePoints_isSome gops false
                (ptsRodizio zmrcShape rodizioShape deliveries) cm1 hcm1)
            rw [hrun2]
            simp

/-- Witness for C10: a single in-zone demand crashes the model; adding an
outside demand makes the run succeed. -/
theorem zone_redistribution_empty_crash_witness :
    generateDeliveryClustersCore unitGeomOps originZone zoneEmpty () () 1
        [dInZone] = none
    ∧ (generateDeliveryClustersCore unitGeomOps originZone zoneEmpty () () 1
        [dInZone, dOutside]).isSome = true :=
  ⟨zone_redistribution_empty_crash.1 Unit unitGeomOps originZone zoneEmpty
      () () 1 [dInZone] (by decide) (by decide) (by decide),
   zone_redistribution_empty_crash.2 Unit unitGeomOps originZone zoneEmpty
      () () 1 [dInZone, dOutside] (by decide)⟩

end Routing
